import Mathlib

/-!
# magellan/resolve: enum and object resolvers

A shallow embedding of `resolve/resolve_enum.go` and `resolve/resolve_object.go`.

* Go maps are association lists with at most one entry per key (`GoMap`).
* `reflect.Type` is a record of the type's name and kind; `reflect.Value` is
  either the zero (invalid) Value or a type together with a payload.
* Calls on the resolution context and on other resolvers are recorded as a
  list of `Effect`s, in program order.  A `go` statement is recorded with the
  flag `spawned := true`.
* A run-time panic (failed type assertion, `IsNil` on a non-nillable kind,
  nil dereference, a method call on the nil `Resolver`, also under `go`) is an
  explicit outcome.
* Pointers to `objectResolver` are addresses into a heap (`Store.heap`).
-/

namespace Magellan

/-! ## Go maps -/

/-- A Go map as an association list. -/
abbrev GoMap (κ : Type) (ν : Type) := List (κ × ν)

namespace GoMap

variable {κ ν : Type} [DecidableEq κ]

/-- The lookup `v, ok := m[k]`. -/
def get? : GoMap κ ν → κ → Option ν
  | [], _ => none
  | (k', v) :: rest, k => if k' = k then some v else get? rest k

/-- The statement `delete(m, k)`. -/
def delete (m : GoMap κ ν) (k : κ) : GoMap κ ν :=
  m.filter (fun e => decide (e.1 ≠ k))

/-- The assignment `m[k] = v`. -/
def set (m : GoMap κ ν) (k : κ) (v : ν) : GoMap κ ν :=
  (k, v) :: delete m k

/-- The keys present in the map. -/
def keys (m : GoMap κ ν) : List κ := m.map Prod.fst

end GoMap

/-! ## reflect -/

/-- The kinds of `reflect.Kind`. -/
inductive Kind where
  | Invalid | Bool
  | Int | Int8 | Int16 | Int32 | Int64
  | Uint | Uint8 | Uint16 | Uint32 | Uint64 | Uintptr
  | Float32 | Float64 | Complex64 | Complex128
  | Array | Chan | Func | Interface | Map | Ptr | Slice
  | String | Struct | UnsafePointer
  deriving DecidableEq, Repr

/-- A `reflect.Type`: the type's name (what `String()` prints) and its kind.
Two types are identical when both agree, so a declared type such as
`type Color int` is `⟨"main.Color", Kind.Int⟩`, distinct from `int`. -/
structure RType where
  name : String
  kind : Kind
  deriving DecidableEq, Repr

/-- The predeclared type `int`. -/
def goInt : RType := ⟨"int", Kind.Int⟩

/-- The predeclared type `string`, which is `reflect.TypeOf("")`. -/
def goString : RType := ⟨"string", Kind.String⟩

/-- Modelled from the spec: `types.GraphQLPrimitivesTypes["Int"]`, a table of
package `types` that is not part of the two files; the spec calls it the
canonical integer type, and `Execute` asserts `int` after converting to it. -/
def intType : RType := goInt

/-- Kinds of integer and floating-point types. -/
def kindIsNumeric : Kind → Bool
  | .Int | .Int8 | .Int16 | .Int32 | .Int64 => true
  | .Uint | .Uint8 | .Uint16 | .Uint32 | .Uint64 | .Uintptr => true
  | .Float32 | .Float64 => true
  | _ => false

/-- Kinds whose values may be nil, the ones `Value.IsNil` accepts. -/
def kindIsNillable : Kind → Bool
  | .Chan | .Func | .Interface | .Map | .Ptr | .Slice | .UnsafePointer => true
  | _ => false

/-- The method `Type.ConvertibleTo` for a target of kind `Int`: the source is
an integer or floating-point type. Other targets are not used by the code. -/
def RType.ConvertibleTo (t : RType) (target : RType) : Bool :=
  if target.kind = Kind.Int then kindIsNumeric t.kind else decide (t = target)

/-- The language/ast type references. -/
inductive AstType where
  | Named (name : String)
  | List (inner : AstType)
  | NonNull (inner : AstType)
  deriving DecidableEq, Repr

/-- An `ast.Name`. -/
structure Name where
  Value : String
  deriving DecidableEq, Repr

/-- An `ast.FieldDefinition`; `Name` is a pointer and may be nil, `Typ` is
the field `Type`. -/
structure FieldDefinition where
  Name : Option Name
  Typ : AstType
  deriving DecidableEq, Repr

/-- An `ast.ObjectDefinition`. -/
structure ObjectDefinition where
  Name : Option Name
  Fields : List FieldDefinition
  deriving DecidableEq, Repr

/-- An `ast.EnumValueDefinition`. -/
structure EnumValueDefinition where
  Name : Option Name
  deriving DecidableEq, Repr

/-- An `ast.EnumDefinition`. -/
structure EnumDefinition where
  Name : Option Name
  Values : List EnumValueDefinition
  deriving DecidableEq, Repr

/-- What a `reflect.Value` holds. -/
inductive Data where
  /-- the nil reference -/
  | null
  /-- a string -/
  | str (s : String)
  /-- an integer of any integer kind -/
  | num (n : Int)
  /-- a floating-point number, given by the integer its conversion to an
  integer type yields -/
  | flt (trunc : Int)
  /-- a non-nil reference to some object -/
  | ref (addr : Nat)
  /-- the value `&introspect.ObjectResolver{Lookup, AST, SchemaResolver}` -/
  | introspect (Lookup : Nat) (AST : ObjectDefinition) (SchemaResolver : Nat)
  deriving DecidableEq, Repr

/-- A `reflect.Value`. -/
inductive Value where
  /-- the zero Value, for which `IsValid` is false -/
  | invalid
  | val (typ : RType) (data : Data)
  deriving DecidableEq, Repr

namespace Value

/-- The method `Value.IsValid`. -/
def IsValid : Value → Bool
  | invalid => false
  | val _ _ => true

/-- The method `Value.Kind`. -/
def Kind : Value → Magellan.Kind
  | invalid => Magellan.Kind.Invalid
  | val t _ => t.kind

/-- The method `Value.IsNil`; `none` is the panic on a kind that cannot be nil. -/
def IsNil : Value → Option Bool
  | invalid => none
  | val t d => if kindIsNillable t.kind then some (decide (d = Data.null)) else none

/-- The assertion `value.Interface().(string)`: the dynamic type has to be the
predeclared `string`. `none` is the panic of a failed assertion. -/
def assertString : Value → Option String
  | val t (Data.str s) => if t = goString then some s else none
  | _ => none

/-- The assertion `value.Interface().(int)`: the dynamic type has to be the
predeclared `int`. `none` is the panic of a failed assertion. -/
def assertInt : Value → Option Int
  | val t (Data.num n) => if t = goInt then some n else none
  | _ => none

/-- The width of `int` on the 64-bit platforms. -/
def intBits : Nat := 64

/-- Two's complement wrap-around of a number into the range of `int`. -/
def wrapInt (n : Int) : Int :=
  (n + 2 ^ (intBits - 1)) % 2 ^ intBits - 2 ^ (intBits - 1)

/-- The method `Value.Convert` for a target of kind `Int`, which is the only
target the enum resolver has; `none` is a panic. -/
def Convert : Value → RType → Option Value
  | val _ (Data.num n), t => if t.kind = Magellan.Kind.Int then some (val t (Data.num (wrapInt n))) else none
  | val _ (Data.flt k), t => if t.kind = Magellan.Kind.Int then some (val t (Data.num (wrapInt k))) else none
  | _, _ => none

end Value

/-- The function `reflect.ValueOf` on a string. -/
def valueOfString (s : String) : Value := Value.val goString (Data.str s)

/-! ## Query tree, contexts, resolvers -/

/-- A `qtree.QueryTreeNode`, as far as the resolvers read it. -/
inductive QueryTreeNode where
  | mk (Id : Nat) (FieldName : String) (Children : List QueryTreeNode)
  deriving Repr

mutual
/-- Equality of query tree nodes is decidable. -/
def QueryTreeNode.decEq : (a b : QueryTreeNode) → Decidable (a = b)
  | .mk i f c, .mk i' f' c' =>
    if hi : i = i' then
      if hf : f = f' then
        match QueryTreeNode.decEqList c c' with
        | isTrue hc => isTrue (by rw [hi, hf, hc])
        | isFalse hc => isFalse (fun h => hc (QueryTreeNode.mk.inj h).2.2)
      else isFalse (fun h => hf (QueryTreeNode.mk.inj h).2.1)
    else isFalse (fun h => hi (QueryTreeNode.mk.inj h).1)
/-- Equality of lists of query tree nodes is decidable. -/
def QueryTreeNode.decEqList : (a b : List QueryTreeNode) → Decidable (a = b)
  | [], [] => isTrue rfl
  | [], _ :: _ => isFalse (fun h => List.noConfusion h)
  | _ :: _, [] => isFalse (fun h => List.noConfusion h)
  | a :: as, b :: bs =>
    match QueryTreeNode.decEq a b with
    | isTrue h1 =>
      match QueryTreeNode.decEqList as bs with
      | isTrue h2 => isTrue (by rw [h1, h2])
      | isFalse h2 => isFalse (fun h => h2 (List.cons.inj h).2)
    | isFalse h1 => isFalse (fun h => h1 (List.cons.inj h).1)
end

instance : DecidableEq QueryTreeNode := QueryTreeNode.decEq

namespace QueryTreeNode

/-- The field `Id`. -/
def Id : QueryTreeNode → Nat
  | mk i _ _ => i

/-- The field `FieldName`. -/
def FieldName : QueryTreeNode → String
  | mk _ f _ => f

/-- The field `Children`. -/
def Children : QueryTreeNode → List QueryTreeNode
  | mk _ _ c => c

end QueryTreeNode

/-- A `Resolver` interface value: nil, a pointer to an `objectResolver` on the
heap, or a resolver made by one of the other builders. -/
inductive Resolver where
  /-- the nil interface value -/
  | nil
  | object (addr : Nat)
  | other (id : Nat)
  deriving DecidableEq, Repr

/-- A `resolutionContext`, as far as the resolvers read it. `id` stands for
the identity of the context. -/
structure resolutionContext where
  id : Nat
  qnode : QueryTreeNode
  isRoot : Bool
  isSerial : Bool
  isArray : Bool
  deriving DecidableEq, Repr

/-- Modelled from the spec: the method `resolutionContext.Child`, which is not
in the two files: it spawns a child context bound to the given query node,
flagged root/array as given; the concurrency mode is that of the parent. -/
def resolutionContext.Child (rc : resolutionContext) (nod : QueryTreeNode)
    (isRoot isArray : Bool) (id : Nat) : resolutionContext :=
  { id := id, qnode := nod, isRoot := isRoot, isSerial := rc.isSerial, isArray := isArray }

/-- The calls a resolver makes on its context and on other resolvers. -/
inductive Effect where
  /-- the call `rc.SetValue(nil)` -/
  | SetValueNil (rc : resolutionContext)
  /-- the call `rc.SetError(fmt.Errorf(...))` with the formatted message -/
  | SetError (rc : resolutionContext) (msg : String)
  /-- the call `rc.SetSelectionSet()` -/
  | SetSelectionSet (rc : resolutionContext)
  /-- the call `rc.Child(nod, isRoot, isArray)` and the context it returned -/
  | Child (rc : resolutionContext) (nod : QueryTreeNode) (isRoot isArray : Bool)
      (childRc : resolutionContext)
  /-- the call `fr.Execute(rc, arg)`, in a new goroutine when `spawned`; what
  the called resolver does is not part of the trace, and a call that is not
  spawned is taken to return -/
  | Execute (fr : Resolver) (rc : resolutionContext) (arg : Value) (spawned : Bool)
  /-- the call `rc.Purge()` -/
  | Purge (rc : resolutionContext)
  /-- the call `qnode.SubscribeChanges()` -/
  | SubscribeChanges (qnode : QueryTreeNode)
  /-- the call `qsub.Unsubscribe()` -/
  | Unsubscribe
  /-- the call `rc.wg.Done()` -/
  | WgDone (rc : resolutionContext)
  deriving DecidableEq, Repr

/-- How a call of `Execute` ends: it returns, it panics, or it is still
waiting in its `select` when the given events are used up. -/
inductive Status where
  | returned | panicked | blocked
  deriving DecidableEq, Repr

/-- The struct `TypeResolverPair`, the key of the tree's mapping. -/
structure TypeResolverPair where
  GqlType : AstType
  ResolverType : RType
  deriving DecidableEq, Repr

/-- The struct `objectResolver`. -/
structure objectResolver where
  pair : TypeResolverPair
  typeName : Value
  fieldResolvers : GoMap String Resolver
  arrayFields : GoMap String Bool
  introspectResolver : Value
  deriving DecidableEq, Repr

/-- The struct `ResolverTree`, as far as the builders use it. `Lookup` and
`IntrospectionResolver` are handed on unread and stand for their identity. -/
structure ResolverTree where
  Resolvers : GoMap TypeResolverPair Resolver
  Lookup : Nat
  IntrospectionResolver : Nat
  deriving DecidableEq, Repr

/-- The program state the builders work on: the tree, and the `objectResolver`
instances allocated so far; a pointer to one is its position in `heap`. -/
structure Store where
  rt : ResolverTree
  heap : List objectResolver
  deriving DecidableEq, Repr

/-- What a builder comes back with: a result, a construction error, or a panic. -/
inductive Built (α : Type) where
  | ok (v : α)
  | err (msg : String)
  | panic
  deriving DecidableEq, Repr

/-! ## resolve_enum.go -/

/-- The global `stringTypeRef`. -/
def stringTypeRef : AstType := AstType.Named "String"

/-- The struct `enumResolver`. -/
structure enumResolver where
  useName : Bool
  possibleValues : GoMap String Nat
  possibleValuesIndex : List String
  valueResolver : Resolver
  convertTo : Option RType
  deriving DecidableEq, Repr

/-- The result of one call of `Execute`. -/
structure EnumRun where
  trace : List Effect
  status : Status
  deriving DecidableEq, Repr

/-- The message `fmt.Errorf("Enum value %s not in list of possible values.", sval)`. -/
def enumNameError (sval : String) : String :=
  "Enum value " ++ sval ++ " not in list of possible values."

/-- The message `fmt.Errorf("Enum value %d not in list of possible values.", ival)`. -/
def enumOrdinalError (ival : Int) : String :=
  "Enum value " ++ toString ival ++ " not in list of possible values."

/-- The statement `go er.valueResolver.Execute(rc, value)`: the method value is
taken in the calling goroutine, so that on a nil `valueResolver` the caller
panics and no call is made. -/
def enumResolver.delegate (er : enumResolver) (rc : resolutionContext) (value : Value) :
    EnumRun :=
  if er.valueResolver = Resolver.nil then ⟨[], Status.panicked⟩
  else ⟨[Effect.Execute er.valueResolver rc value true], Status.returned⟩

/-- The method `enumResolver.Execute`. -/
def enumResolver.Execute (er : enumResolver) (rc : resolutionContext) (value : Value) :
    EnumRun :=
  if !value.IsValid || (value.Kind == Kind.Ptr && value.IsNil == some true) then
    ⟨[Effect.SetValueNil rc], Status.returned⟩
  else if er.useName then
    match value.assertString with
    | none => ⟨[], Status.panicked⟩
    | some sval =>
      match GoMap.get? er.possibleValues sval with
      | none => ⟨[Effect.SetError rc (enumNameError sval)], Status.returned⟩
      | some _ => er.delegate rc value
  else
    let converted : Option Value :=
      match er.convertTo with
      | some t => value.Convert t
      | none => some value
    match converted with
    | none => ⟨[], Status.panicked⟩
    | some value =>
      match value.assertInt with
      | none => ⟨[], Status.panicked⟩
      | some ival =>
        if ival < 0 || ival > (er.possibleValuesIndex.length : Int) then
          ⟨[Effect.SetError rc (enumOrdinalError ival)], Status.returned⟩
        else
          er.delegate rc value

/-- The names an enum definition declares, in order. -/
def declaredNames (etyp : EnumDefinition) : List String :=
  etyp.Values.filterMap (fun val => val.Name.map Name.Value)

/-- The message of the construction error of `buildEnumResolver`. -/
def enumKindError (value : RType) : String :=
  "Enum values can be expressed with an int or string, not " ++ value.name ++ "."

/-- The loop `for idx, val := range etyp.Values` of `buildEnumResolver`, from
index `idx` on; `none` is the nil dereference of `val.Name`. -/
def fillEnumValues (useName : Bool) :
    enumResolver → Nat → List EnumValueDefinition → Option enumResolver
  | resolver, _, [] => some resolver
  | resolver, idx, val :: rest =>
    match val.Name with
    | none => none
    | some name =>
      if useName then
        fillEnumValues useName
          { resolver with possibleValues := GoMap.set resolver.possibleValues name.Value idx }
          (idx + 1) rest
      else
        fillEnumValues useName
          { resolver with possibleValuesIndex := resolver.possibleValuesIndex.set idx name.Value }
          (idx + 1) rest

/-- The method `ResolverTree.buildEnumResolver`. `BuildResolver` is the
method of the tree that builds the resolver of a pairing; it is not in the two
files and is taken as given. -/
def buildEnumResolver
    (BuildResolver : Store → TypeResolverPair → Except String Resolver × Store)
    (s : Store) (value : RType) (etyp : EnumDefinition) : Built enumResolver × Store :=
  let useName := value.kind == Kind.String
  let checked : Except String Bool :=
    if !useName && value.kind != Kind.Int then
      if value.ConvertibleTo intType then Except.ok true
      else Except.error (enumKindError value)
    else Except.ok false
  match checked with
  | Except.error e => (Built.err e, s)
  | Except.ok needsConvert =>
    let resolver : enumResolver :=
      { useName := useName
        possibleValues := []
        possibleValuesIndex := []
        valueResolver := Resolver.nil
        convertTo := none }
    let resolver := if needsConvert then { resolver with convertTo := some intType } else resolver
    let resolver :=
      if useName then { resolver with possibleValues := [] }
      else { resolver with possibleValuesIndex := List.replicate etyp.Values.length "" }
    match fillEnumValues useName resolver 0 etyp.Values with
    | none => (Built.panic, s)
    | some resolver =>
      match BuildResolver s { GqlType := stringTypeRef, ResolverType := value } with
      | (Except.error e, s') => (Built.err e, s')
      | (Except.ok vr, s') => (Built.ok { resolver with valueResolver := vr }, s')

/-! ## resolve_object.go -/

/-- The constants `qtree.Operation_AddChild`, `Operation_DelChild` and
`Operation_Delete`. -/
inductive Operation where
  | Operation_AddChild | Operation_DelChild | Operation_Delete
  deriving DecidableEq, Repr

/-- A change received from `qsub.Changes()`. -/
structure QueryTreeChange where
  Operation : Operation
  Child : QueryTreeNode
  deriving DecidableEq, Repr

/-- What the `select` of the reactive loop receives next: a change of the
query node, or the closing of `rc.ctx.Done()`. -/
inductive Event where
  | change (qs : QueryTreeChange)
  | done
  deriving DecidableEq, Repr

/-- The locals of one call of `objectResolver.Execute`: the map `fieldCancels`
(a closure `func() { childRc.Purge() }` is given by the `childRc` it holds),
the calls made so far, and the identity the next child context gets. -/
structure ObjectRun where
  fieldCancels : GoMap Nat resolutionContext
  trace : List Effect
  fresh : Nat
  deriving DecidableEq, Repr

/-- The result of one call of `objectResolver.Execute`: the calls it made, how
it ended, and the map `fieldCancels` at that point. -/
structure ObjectResult where
  trace : List Effect
  status : Status
  fieldCancels : GoMap Nat resolutionContext
  deriving DecidableEq, Repr

/-- The closure `processChild` of `objectResolver.Execute`: the locals after
it, and whether it returned or panicked. The method value `fr.Execute` is taken
in the calling goroutine, also under `go`, so that on a nil `fr` the closure
panics after it has made the child context and recorded its teardown. -/
def processChild (r : objectResolver) (rc : resolutionContext) (resolver : Value)
    (st : ObjectRun) (nod : QueryTreeNode) : ObjectRun × Status :=
  let fieldName := nod.FieldName
  match GoMap.get? r.fieldResolvers fieldName with
  | none => (st, Status.returned)
  | some fr =>
    let isArray := (GoMap.get? r.arrayFields fieldName).getD false
    let childRc := rc.Child nod false isArray st.fresh
    let st1 : ObjectRun :=
      { fieldCancels := GoMap.set st.fieldCancels nod.Id childRc
        trace := st.trace ++ [Effect.Child rc nod false isArray childRc]
        fresh := st.fresh + 1 }
    let resArg :=
      if fieldName = "__typename" then r.typeName
      else if fieldName = "__schema" ∨ fieldName = "__type" then r.introspectResolver
      else resolver
    if fr = Resolver.nil then (st1, Status.panicked)
    else
      ({ st1 with trace := st1.trace ++ [Effect.Execute fr childRc resArg (!rc.isSerial)] },
       Status.returned)

/-- The loop `for _, child := range qnode.Children { processChild(child) }`;
a panic of `processChild` ends it. -/
def fanOut (r : objectResolver) (rc : resolutionContext) (resolver : Value) :
    ObjectRun → List QueryTreeNode → ObjectRun × Status
  | st, [] => (st, Status.returned)
  | st, child :: rest =>
    match processChild r rc resolver st child with
    | (st1, Status.returned) => fanOut r rc resolver st1 rest
    | (st1, status) => (st1, status)

/-- The `for { select { ... } }` loop of `objectResolver.Execute`, run on the
events it receives, in order. With no event left it stays blocked; a panic of
`processChild` ends it. -/
def reactiveLoop (r : objectResolver) (rc : resolutionContext) (resolver : Value) :
    ObjectRun → List Event → ObjectRun × Status
  | st, [] => (st, Status.blocked)
  | st, Event.done :: _ => (st, Status.returned)
  | st, Event.change qs :: rest =>
    match qs.Operation with
    | Operation.Operation_AddChild =>
      match processChild r rc resolver st qs.Child with
      | (st1, Status.returned) => reactiveLoop r rc resolver st1 rest
      | (st1, status) => (st1, status)
    | Operation.Operation_DelChild =>
      let id := qs.Child.Id
      match GoMap.get? st.fieldCancels id with
      | some childRc =>
        reactiveLoop r rc resolver
          { st with
            trace := st.trace ++ [Effect.Purge childRc]
            fieldCancels := GoMap.delete st.fieldCancels id }
          rest
      | none => reactiveLoop r rc resolver st rest
    | Operation.Operation_Delete =>
      ({ st with trace := st.trace ++ [Effect.Purge rc] }, Status.returned)

/-- The method `objectResolver.Execute`. `fresh` is the identity of the first
context that `rc.Child` creates, `events` is what the `select` receives. The
deferred calls run when the method returns and when it panics. -/
def objectResolver.Execute (r : objectResolver) (rc : resolutionContext) (resolver : Value)
    (fresh : Nat) (events : List Event) : ObjectResult :=
  let deferred : List Effect := if rc.isRoot then [Effect.WgDone rc] else []
  if !resolver.IsValid then
    ⟨[Effect.SetValueNil rc] ++ deferred, Status.returned, []⟩
  else
    match resolver.IsNil with
    | none => ⟨deferred, Status.panicked, []⟩
    | some true => ⟨[Effect.SetValueNil rc] ++ deferred, Status.returned, []⟩
    | some false =>
      let st : ObjectRun :=
        { fieldCancels := [], trace := [Effect.SetSelectionSet rc], fresh := fresh }
      match fanOut r rc resolver st rc.qnode.Children with
      | (st, Status.returned) =>
        if rc.isSerial then
          ⟨st.trace ++ deferred, Status.returned, st.fieldCancels⟩
        else
          let st := { st with trace := st.trace ++ [Effect.SubscribeChanges rc.qnode] }
          match reactiveLoop r rc resolver st events with
          | (st, Status.blocked) => ⟨st.trace, Status.blocked, st.fieldCancels⟩
          | (st, status) =>
            ⟨st.trace ++ [Effect.Unsubscribe] ++ deferred, status, st.fieldCancels⟩
      | (st, status) => ⟨st.trace ++ deferred, status, st.fieldCancels⟩

/-- Modelled from the spec: `introspect.ObjectResolverType`, a variable of
package `introspect` that is not part of the two files: the native type of the
introspection resolver, a pointer to `introspect.ObjectResolver`. -/
def introspectObjectResolverType : RType := ⟨"*introspect.ObjectResolver", Kind.Ptr⟩

/-- The builders `buildObjectResolver` calls that are not in the two files,
taken as given: `findResolverFunc`, which locates the function of a field (a
function is given by a number), and the methods `buildFuncResolver` and
`buildPrimitiveResolver` of the tree, which may change the program state. -/
structure Builders where
  findResolverFunc : RType → String → Except String Nat
  buildFuncResolver : Store → Nat → FieldDefinition → Except String Resolver × Store
  buildPrimitiveResolver : Store → RType → AstType → Except String Resolver × Store

/-- A call of one of the `Builders`, with its arguments. -/
inductive Call where
  | findResolverFunc (resolverType : RType) (name : String)
  | buildFuncResolver (resolverFunc : Nat) (field : FieldDefinition)
  | buildPrimitiveResolver (value : RType) (gtyp : AstType)
  deriving DecidableEq, Repr

/-- An assignment through the pointer `addr` to an `objectResolver`. -/
def Store.update (s : Store) (addr : Nat) (f : objectResolver → objectResolver) : Store :=
  { s with heap := match s.heap.get? addr with
      | some o => s.heap.set addr (f o)
      | none => s.heap }

/-- The result of `buildObjectResolver`: what it returns, the program state it
leaves, and the calls of the `Builders` it made, each with the program state
at the time of the call. -/
structure ObjectBuild where
  result : Built Resolver
  store : Store
  calls : List (Call × Store)
  deriving DecidableEq, Repr

/-- The loop `for _, field := range odef.Fields` of `buildObjectResolver`;
`addr` is the pointer `objr`. The first component is the error returned from
inside the loop, if any. -/
def buildFields (env : Builders) (pair : TypeResolverPair) (addr : Nat) :
    Store → List FieldDefinition → Option String × Store × List (Call × Store)
  | s, [] => (none, s, [])
  | s, field :: rest =>
    match field.Name with
    | none => buildFields env pair addr s rest
    | some name =>
      if name.Value = "" then buildFields env pair addr s rest
      else
        let resolverType :=
          if name.Value = "__schema" ∨ name.Value = "__type" then introspectObjectResolverType
          else pair.ResolverType
        let call1 := (Call.findResolverFunc resolverType name.Value, s)
        match env.findResolverFunc resolverType name.Value with
        | Except.error e => (some e, s, [call1])
        | Except.ok resolverFunc =>
          let call2 := (Call.buildFuncResolver resolverFunc field, s)
          match env.buildFuncResolver s resolverFunc field with
          | (Except.error e, s1) => (some e, s1, [call1, call2])
          | (Except.ok fieldResolver, s1) =>
            let s2 := s1.update addr (fun o =>
              { o with fieldResolvers := GoMap.set o.fieldResolvers name.Value fieldResolver })
            let ftyp := match field.Typ with
              | AstType.NonNull inner => inner
              | t => t
            let s3 := match ftyp with
              | AstType.List _ => s2.update addr (fun o =>
                  { o with arrayFields := GoMap.set o.arrayFields name.Value true })
              | _ => s2
            match buildFields env pair addr s3 rest with
            | (res, sf, calls) => (res, sf, call1 :: call2 :: calls)

/-- The method `ResolverTree.buildObjectResolver`. -/
def buildObjectResolver (env : Builders) (s : Store) (pair : TypeResolverPair)
    (odef : ObjectDefinition) : ObjectBuild :=
  match odef.Name with
  | none => ⟨Built.panic, s, []⟩
  | some name =>
    let addr := s.heap.length
    let objr : objectResolver :=
      { pair := pair
        typeName := valueOfString name.Value
        fieldResolvers := []
        arrayFields := []
        introspectResolver := Value.invalid }
    let s0 : Store :=
      { rt := { s.rt with Resolvers := GoMap.set s.rt.Resolvers pair (Resolver.object addr) }
        heap := s.heap ++ [objr] }
    let introspectResolver := Value.val introspectObjectResolverType
      (Data.introspect s0.rt.Lookup odef s0.rt.IntrospectionResolver)
    let s1 := s0.update addr (fun o => { o with introspectResolver := introspectResolver })
    match buildFields env pair addr s1 odef.Fields with
    | (some e, sf, calls) => ⟨Built.err e, sf, calls⟩
    | (none, sf, calls) =>
      let call := (Call.buildPrimitiveResolver goString stringTypeRef, sf)
      match env.buildPrimitiveResolver sf goString stringTypeRef with
      | (Except.error e, s2) => ⟨Built.err e, s2, calls ++ [call]⟩
      | (Except.ok tnResolver, s2) =>
        ⟨Built.ok (Resolver.object addr),
         s2.update addr (fun o =>
           { o with fieldResolvers := GoMap.set o.fieldResolvers "__typename" tnResolver }),
         calls ++ [call]⟩

/-! ## The bookkeeping of the reactive loop, in the words of the spec -/

/-- The changes the reactive loop handles before it returns: those received
before the node is deleted or the cancellation is observed. -/
def processedChanges : List Event → List QueryTreeChange
  | [] => []
  | Event.done :: _ => []
  | Event.change qs :: rest =>
    if qs.Operation = Operation.Operation_Delete then [] else qs :: processedChanges rest

/-- The change adds a child with identifier `id` whose field has a resolver
that is not nil, so that the child is dispatched. -/
def isDispatchOf (r : objectResolver) (id : Nat) (qs : QueryTreeChange) : Bool :=
  decide (qs.Operation = Operation.Operation_AddChild) && decide (qs.Child.Id = id) &&
    (match GoMap.get? r.fieldResolvers qs.Child.FieldName with
      | some fr => decide (fr ≠ Resolver.nil)
      | none => false)

/-- The change removes the child with identifier `id`. -/
def isRemovalOf (id : Nat) (qs : QueryTreeChange) : Bool :=
  decide (qs.Operation = Operation.Operation_DelChild) && decide (qs.Child.Id = id)

/-- The child `id` was dispatched by one of the changes and has not been
removed by a later one. -/
def dispatchedNotRemoved (r : objectResolver) : List QueryTreeChange → Nat → Bool
  | [], _ => false
  | qs :: rest, id =>
    (isDispatchOf r id qs && rest.all (fun later => !isRemovalOf id later)) ||
      dispatchedNotRemoved r rest id

/-- The selected children of a node, seen as the additions that the initial
fan-out handles. -/
def initialAdds (children : List QueryTreeNode) : List QueryTreeChange :=
  children.map (fun nod => ⟨Operation.Operation_AddChild, nod⟩)

/-! ## What the other builders must leave alone -/

/-- The builders that `buildObjectResolver` calls leave the registration of
`pair` and the instance at `addr` as they are, when both are there. A nested
build of another pairing, which adds a mapping entry and allocates a new
instance, and a nested build of `pair` itself, which finds the registered
instance, both do so. -/
def Builders.Frame (env : Builders) (pair : TypeResolverPair) (addr : Nat) : Prop :=
  (∀ (st : Store) (f : Nat) (fd : FieldDefinition) (o : objectResolver),
    GoMap.get? st.rt.Resolvers pair = some (Resolver.object addr) →
    st.heap.get? addr = some o →
    GoMap.get? (env.buildFuncResolver st f fd).2.rt.Resolvers pair =
        some (Resolver.object addr) ∧
      (env.buildFuncResolver st f fd).2.heap.get? addr = some o) ∧
  (∀ (st : Store) (t : RType) (g : AstType) (o : objectResolver),
    GoMap.get? st.rt.Resolvers pair = some (Resolver.object addr) →
    st.heap.get? addr = some o →
    GoMap.get? (env.buildPrimitiveResolver st t g).2.rt.Resolvers pair =
        some (Resolver.object addr) ∧
      (env.buildPrimitiveResolver st t g).2.heap.get? addr = some o)

/-- The program state `st` has `pair` registered to the instance at `addr`,
and that instance has the build-time fields of `o`. -/
def Store.Holds (st : Store) (pair : TypeResolverPair) (addr : Nat) (o : objectResolver) :
    Prop :=
  GoMap.get? st.rt.Resolvers pair = some (Resolver.object addr) ∧
  ∃ o', st.heap.get? addr = some o' ∧ o'.pair = o.pair ∧ o'.typeName = o.typeName ∧
    o'.introspectResolver = o.introspectResolver

/-- The instance that `buildObjectResolver` has made when it enters the loop
over the fields: no field resolvers yet. -/
def initialInstance (s : Store) (pair : TypeResolverPair) (odef : ObjectDefinition)
    (name : Name) : objectResolver :=
  { pair := pair
    typeName := valueOfString name.Value
    fieldResolvers := []
    arrayFields := []
    introspectResolver := Value.val introspectObjectResolverType
      (Data.introspect s.rt.Lookup odef s.rt.IntrospectionResolver) }

/-- The program state in which `buildObjectResolver` enters the loop over the
fields: `pair` is registered and the new instance is allocated. -/
def registeredStore (s : Store) (pair : TypeResolverPair) (odef : ObjectDefinition)
    (name : Name) : Store :=
  { rt := { s.rt with
      Resolvers := GoMap.set s.rt.Resolvers pair (Resolver.object s.heap.length) }
    heap := s.heap ++ [initialInstance s pair odef name] }

/-- A call of a field resolver is made on the resolver registered for the
field its context is bound to, which is not nil, with the argument chosen by
that field name. -/
def FieldCallOk (r : objectResolver) (resolver : Value) : Effect → Prop
  | Effect.Execute fr childRc arg _ =>
    GoMap.get? r.fieldResolvers childRc.qnode.FieldName = some fr ∧
    fr ≠ Resolver.nil ∧
    arg = (if childRc.qnode.FieldName = "__typename" then r.typeName
      else if childRc.qnode.FieldName = "__schema" ∨ childRc.qnode.FieldName = "__type" then
        r.introspectResolver
      else resolver)
  | _ => True

/-! ## Concrete inputs -/

namespace Example

/-- A build state with an empty tree and an empty heap. -/
def emptyStore : Store := ⟨⟨[], 0, 1⟩, []⟩

/-- A `BuildResolver` that returns resolver number 7 and leaves the state as it is. -/
def leafBuildResolver : Store → TypeResolverPair → Except String Resolver × Store :=
  fun s _ => (Except.ok (Resolver.other 7), s)

/-- A `BuildResolver` that returns one resolver per native type, resolver 8 for
`int8` and resolver 7 for every other type, and leaves the state as it is. -/
def pairBuildResolver : Store → TypeResolverPair → Except String Resolver × Store :=
  fun s pair =>
    (Except.ok (Resolver.other (if pair.ResolverType.kind = Kind.Int8 then 8 else 7)), s)

/-- The enum `Color` with the declared values RED, GREEN and BLUE. -/
def rgb : EnumDefinition :=
  ⟨some ⟨"Color"⟩, [⟨some ⟨"RED"⟩⟩, ⟨some ⟨"GREEN"⟩⟩, ⟨some ⟨"BLUE"⟩⟩]⟩

/-- A non-root context in concurrent mode on a node that selects `color`. -/
def colorRc : resolutionContext := ⟨0, QueryTreeNode.mk 0 "color" [], false, false, false⟩

/-- The name-based resolver that `buildEnumResolver` makes for `rgb` and `string`. -/
def rgbByName : enumResolver :=
  { useName := true
    possibleValues := [("BLUE", 2), ("GREEN", 1), ("RED", 0)]
    possibleValuesIndex := []
    valueResolver := Resolver.other 7
    convertTo := none }

/-- The ordinal-based resolver that `buildEnumResolver` makes for `rgb` and `int`. -/
def rgbByOrdinal : enumResolver :=
  { useName := false
    possibleValues := []
    possibleValuesIndex := ["RED", "GREEN", "BLUE"]
    valueResolver := Resolver.other 7
    convertTo := none }

/-- The predeclared type `int8`. -/
def goInt8 : RType := ⟨"int8", Kind.Int8⟩

/-- The ordinal-based resolver that `buildEnumResolver` makes for `rgb` and
`int8`: it converts to the canonical int type. -/
def rgbFromInt8 : enumResolver :=
  { useName := false
    possibleValues := []
    possibleValuesIndex := ["RED", "GREEN", "BLUE"]
    valueResolver := Resolver.other 7
    convertTo := some intType }

/-- The predeclared type `bool`. -/
def goBool : RType := ⟨"bool", Kind.Bool⟩

/-- The declared type `type Color int`. -/
def namedInt : RType := ⟨"main.Color", Kind.Int⟩

/-- The declared type `type Shade string`. -/
def namedString : RType := ⟨"main.Shade", Kind.String⟩

/-- The pairing of the GraphQL type `User` with the native type `*main.User`. -/
def userPair : TypeResolverPair := ⟨AstType.Named "User", ⟨"*main.User", Kind.Ptr⟩⟩

/-- The object definition `User` with the fields `a`, `b` and `c`. -/
def userDef : ObjectDefinition :=
  ⟨some ⟨"User"⟩,
   [⟨some ⟨"a"⟩, AstType.Named "String"⟩,
    ⟨some ⟨"b"⟩, AstType.Named "String"⟩,
    ⟨some ⟨"c"⟩, AstType.NonNull (AstType.List (AstType.Named "User"))⟩]⟩

/-- An object resolver for `User` with resolvers for `a`, `b`, `c`, `__schema`
and `__typename`. -/
def userResolver : objectResolver :=
  { pair := userPair
    typeName := valueOfString "User"
    fieldResolvers :=
      [("__typename", Resolver.other 1), ("__schema", Resolver.other 104),
       ("c", Resolver.other 103), ("b", Resolver.other 102), ("a", Resolver.other 101)]
    arrayFields := [("c", true)]
    introspectResolver :=
      Value.val introspectObjectResolverType (Data.introspect 0 userDef 1) }

/-- The query node that selects field `a`. -/
def nodeA : QueryTreeNode := QueryTreeNode.mk 1 "a" []

/-- The query node that selects field `b`. -/
def nodeB : QueryTreeNode := QueryTreeNode.mk 2 "b" []

/-- The query node that selects field `c`. -/
def nodeC : QueryTreeNode := QueryTreeNode.mk 3 "c" []

/-- The query node that selects `__typename`. -/
def nodeTypename : QueryTreeNode := QueryTreeNode.mk 4 "__typename" []

/-- The query node that selects `__schema`. -/
def nodeSchema : QueryTreeNode := QueryTreeNode.mk 5 "__schema" []

/-- A root context in concurrent mode on a node with `a` and `b` selected. -/
def userRc : resolutionContext :=
  ⟨0, QueryTreeNode.mk 0 "user" [nodeA, nodeB], true, false, false⟩

/-- A non-root context in serial mode on a node with `a`, `__typename` and
`__schema` selected. -/
def serialRc : resolutionContext :=
  ⟨0, QueryTreeNode.mk 0 "user" [nodeA, nodeTypename, nodeSchema], false, true, false⟩

/-- A non-nil pointer to a `main.User`. -/
def userValue : Value := Value.val ⟨"*main.User", Kind.Ptr⟩ (Data.ref 5)

/-- The nil pointer of type `*main.User`. -/
def nilUser : Value := Value.val ⟨"*main.User", Kind.Ptr⟩ Data.null

/-- Builders for `userDef`: every field has a function, numbered by the length
of its name; the resolver of field `c`, whose type refers back to `User`, is
the one found in the tree for `userPair`, as a nested build of that pairing
finds it; the other fields get resolver 100 + the number of their function. -/
def selfRefBuilders : Builders :=
  { findResolverFunc := fun _ n => Except.ok n.length
    buildFuncResolver := fun st f fd =>
      (if fd.Name = some ⟨"c"⟩ then
        match GoMap.get? st.rt.Resolvers userPair with
        | some r => Except.ok r
        | none => Except.error "User is not built"
       else Except.ok (Resolver.other (100 + f)), st)
    buildPrimitiveResolver := fun st _ _ => (Except.ok (Resolver.other 1), st) }

/-- Builders for `userDef` that find no function for field `b`. -/
def missingFuncBuilders : Builders :=
  { findResolverFunc := fun _ n =>
      if n = "b" then Except.error "no resolver function for b" else Except.ok n.length
    buildFuncResolver := fun st f _ => (Except.ok (Resolver.other (100 + f)), st)
    buildPrimitiveResolver := fun st _ _ => (Except.ok (Resolver.other 1), st) }

end Example

/-! ## Lemmas on Go maps -/

namespace GoMap

variable {κ ν : Type} [DecidableEq κ]

theorem get?_delete (m : GoMap κ ν) (k k' : κ) :
    get? (delete m k) k' = if k = k' then none else get? m k' := by
  induction m with
  | nil => simp [delete, get?]
  | cons e rest ih =>
    obtain ⟨a, v⟩ := e
    have hcons : delete ((a, v) :: rest) k =
        if a = k then delete rest k else (a, v) :: delete rest k := by
      by_cases hak : a = k <;> simp [delete, List.filter_cons, hak]
    rw [hcons]
    by_cases hak : a = k
    · rw [if_pos hak, ih]
      by_cases hk : k = k'
      · simp [hk]
      · have : ¬ a = k' := fun h => hk (hak ▸ h)
        simp [hk, get?, this]
    · rw [if_neg hak]
      by_cases hak' : a = k'
      · have : ¬ k = k' := fun h => hak (hak'.trans h.symm)
        simp [get?, hak', this]
      · simp only [get?, if_neg hak', ih]

theorem get?_set (m : GoMap κ ν) (k k' : κ) (v : ν) :
    get? (set m k v) k' = if k = k' then some v else get? m k' := by
  by_cases h : k = k'
  · simp [set, get?, h]
  · simp [set, get?, h, get?_delete]

theorem mem_keys_iff (m : GoMap κ ν) (k : κ) : k ∈ keys m ↔ (get? m k).isSome = true := by
  induction m with
  | nil => simp [keys, get?]
  | cons e rest ih =>
    obtain ⟨a, v⟩ := e
    by_cases h : a = k
    · simp [keys, get?, h]
    · have h' : ¬ k = a := fun hh => h hh.symm
      simp only [keys, List.map_cons, List.mem_cons, h', false_or, get?, h, if_false] at ih ⊢
      exact ih

end GoMap

/-! ## Lemmas on the enum resolver -/

theorem fillEnumValues_fields (useName : Bool) (vals : List EnumValueDefinition) :
    ∀ (r : enumResolver) (idx : Nat) (r' : enumResolver),
      fillEnumValues useName r idx vals = some r' →
      r'.useName = r.useName ∧ r'.convertTo = r.convertTo ∧
      r'.valueResolver = r.valueResolver ∧
      r'.possibleValuesIndex.length = r.possibleValuesIndex.length := by
  induction vals with
  | nil =>
    intro r idx r' h
    simp only [fillEnumValues, Option.some.injEq] at h
    subst h
    exact ⟨rfl, rfl, rfl, rfl⟩
  | cons val rest ih =>
    intro r idx r' h
    unfold fillEnumValues at h
    cases hn : val.Name with
    | none => simp [hn] at h
    | some name =>
      simp only [hn] at h
      cases useName with
      | true =>
        simp only [if_true] at h
        have := ih _ _ _ h
        simpa using this
      | false =>
        simp only [Bool.false_eq_true, if_false] at h
        have := ih _ _ _ h
        simpa using this

theorem fillEnumValues_names (vals : List EnumValueDefinition) :
    ∀ (r : enumResolver) (idx : Nat) (r' : enumResolver),
      fillEnumValues true r idx vals = some r' →
      ∀ s : String, (GoMap.get? r'.possibleValues s).isSome = true ↔
        ((GoMap.get? r.possibleValues s).isSome = true ∨
          s ∈ vals.filterMap (fun val => val.Name.map Name.Value)) := by
  induction vals with
  | nil =>
    intro r idx r' h s
    simp only [fillEnumValues, Option.some.injEq] at h
    subst h
    simp
  | cons val rest ih =>
    intro r idx r' h s
    unfold fillEnumValues at h
    cases hn : val.Name with
    | none => simp [hn] at h
    | some name =>
      simp only [hn, if_true] at h
      rw [ih _ _ _ h s]
      simp only [GoMap.get?_set, List.filterMap_cons, hn, Option.map_some', List.mem_cons]
      by_cases hs : name.Value = s
      · simp [hs]
      · have hs' : ¬ s = name.Value := fun h => hs h.symm
        simp [hs, hs']

theorem fillEnumValues_total (useName : Bool) (vals : List EnumValueDefinition)
    (hall : ∀ val ∈ vals, val.Name ≠ none) :
    ∀ (r : enumResolver) (idx : Nat), ∃ r', fillEnumValues useName r idx vals = some r' := by
  induction vals with
  | nil => intro r idx; exact ⟨r, rfl⟩
  | cons val rest ih =>
    intro r idx
    have hrest : ∀ v ∈ rest, v.Name ≠ none := fun v hv => hall v (List.mem_cons_of_mem _ hv)
    unfold fillEnumValues
    cases hn : val.Name with
    | none => exact absurd hn (hall val (List.mem_cons_self _ _))
    | some name =>
      cases useName with
      | true => simpa using ih hrest _ _
      | false => simpa using ih hrest _ _

/-! ## Lemmas on the object resolver -/

/-- The closure `processChild` does nothing on a node whose field has no resolver. -/
theorem processChild_unregistered (r : objectResolver) (rc : resolutionContext)
    (resolver : Value) (st : ObjectRun) (nod : QueryTreeNode)
    (hfr : GoMap.get? r.fieldResolvers nod.FieldName = none) :
    processChild r rc resolver st nod = (st, Status.returned) := by
  simp only [processChild, hfr]

/-- The effects of `processChild` on a node whose field has a resolver that is
not nil. -/
theorem processChild_registered (r : objectResolver) (rc : resolutionContext) (resolver : Value)
    (st : ObjectRun) (nod : QueryTreeNode) (fr : Resolver)
    (hfr : GoMap.get? r.fieldResolvers nod.FieldName = some fr) (hnil : fr ≠ Resolver.nil) :
    processChild r rc resolver st nod =
      ({ fieldCancels := GoMap.set st.fieldCancels nod.Id
          (rc.Child nod false ((GoMap.get? r.arrayFields nod.FieldName).getD false) st.fresh)
         trace := st.trace ++
          [Effect.Child rc nod false ((GoMap.get? r.arrayFields nod.FieldName).getD false)
            (rc.Child nod false ((GoMap.get? r.arrayFields nod.FieldName).getD false) st.fresh),
           Effect.Execute fr
            (rc.Child nod false ((GoMap.get? r.arrayFields nod.FieldName).getD false) st.fresh)
            (if nod.FieldName = "__typename" then r.typeName
              else if nod.FieldName = "__schema" ∨ nod.FieldName = "__type" then
                r.introspectResolver
              else resolver)
            (!rc.isSerial)]
         fresh := st.fresh + 1 }, Status.returned) := by
  simp only [processChild, hfr, if_neg hnil, List.append_assoc, List.singleton_append]

/-- The closure `processChild` panics on a node whose field has the nil
resolver, after the child context is made. -/
theorem processChild_nil (r : objectResolver) (rc : resolutionContext) (resolver : Value)
    (st : ObjectRun) (nod : QueryTreeNode)
    (hfr : GoMap.get? r.fieldResolvers nod.FieldName = some Resolver.nil) :
    processChild r rc resolver st nod =
      ({ fieldCancels := GoMap.set st.fieldCancels nod.Id
          (rc.Child nod false ((GoMap.get? r.arrayFields nod.FieldName).getD false) st.fresh)
         trace := st.trace ++
          [Effect.Child rc nod false ((GoMap.get? r.arrayFields nod.FieldName).getD false)
            (rc.Child nod false ((GoMap.get? r.arrayFields nod.FieldName).getD false) st.fresh)]
         fresh := st.fresh + 1 }, Status.panicked) := by
  simp only [processChild, hfr, if_true]

/-- The three cases of `processChild`. -/
theorem processChild_cases (r : objectResolver) (rc : resolutionContext) (resolver : Value)
    (st : ObjectRun) (nod : QueryTreeNode) :
    (GoMap.get? r.fieldResolvers nod.FieldName = none ∧
      processChild r rc resolver st nod = (st, Status.returned)) ∨
    (∃ fr, GoMap.get? r.fieldResolvers nod.FieldName = some fr ∧ fr ≠ Resolver.nil ∧
      (processChild r rc resolver st nod).2 = Status.returned) ∨
    (GoMap.get? r.fieldResolvers nod.FieldName = some Resolver.nil ∧
      (processChild r rc resolver st nod).2 = Status.panicked) := by
  cases hfr : GoMap.get? r.fieldResolvers nod.FieldName with
  | none => exact Or.inl ⟨rfl, processChild_unregistered _ _ _ _ _ hfr⟩
  | some fr =>
    by_cases hnil : fr = Resolver.nil
    · subst hnil
      exact Or.inr (Or.inr ⟨rfl, by rw [processChild_nil _ _ _ _ _ hfr]⟩)
    · exact Or.inr (Or.inl ⟨fr, rfl, hnil, by rw [processChild_registered _ _ _ _ _ _ hfr hnil]⟩)

theorem fanOut_cons_returned (r : objectResolver) (rc : resolutionContext) (resolver : Value)
    (st st1 : ObjectRun) (child : QueryTreeNode) (rest : List QueryTreeNode)
    (h : processChild r rc resolver st child = (st1, Status.returned)) :
    fanOut r rc resolver st (child :: rest) = fanOut r rc resolver st1 rest := by
  simp only [fanOut, h]

theorem fanOut_cons_panicked (r : objectResolver) (rc : resolutionContext) (resolver : Value)
    (st st1 : ObjectRun) (child : QueryTreeNode) (rest : List QueryTreeNode)
    (h : processChild r rc resolver st child = (st1, Status.panicked)) :
    fanOut r rc resolver st (child :: rest) = (st1, Status.panicked) := by
  simp only [fanOut, h]

theorem reactiveLoop_add_returned (r : objectResolver) (rc : resolutionContext)
    (resolver : Value) (st st1 : ObjectRun) (qs : QueryTreeChange) (rest : List Event)
    (hop : qs.Operation = Operation.Operation_AddChild)
    (h : processChild r rc resolver st qs.Child = (st1, Status.returned)) :
    reactiveLoop r rc resolver st (Event.change qs :: rest) =
      reactiveLoop r rc resolver st1 rest := by
  simp only [reactiveLoop, hop, h]

theorem reactiveLoop_add_panicked (r : objectResolver) (rc : resolutionContext)
    (resolver : Value) (st st1 : ObjectRun) (qs : QueryTreeChange) (rest : List Event)
    (hop : qs.Operation = Operation.Operation_AddChild)
    (h : processChild r rc resolver st qs.Child = (st1, Status.panicked)) :
    reactiveLoop r rc resolver st (Event.change qs :: rest) = (st1, Status.panicked) := by
  simp only [reactiveLoop, hop, h]

theorem reactiveLoop_del_some (r : objectResolver) (rc : resolutionContext)
    (resolver : Value) (st : ObjectRun) (qs : QueryTreeChange) (rest : List Event)
    (childRc : resolutionContext)
    (hop : qs.Operation = Operation.Operation_DelChild)
    (hg : GoMap.get? st.fieldCancels qs.Child.Id = some childRc) :
    reactiveLoop r rc resolver st (Event.change qs :: rest) =
      reactiveLoop r rc resolver
        { st with
          trace := st.trace ++ [Effect.Purge childRc]
          fieldCancels := GoMap.delete st.fieldCancels qs.Child.Id } rest := by
  simp only [reactiveLoop, hop, hg]

theorem reactiveLoop_del_none (r : objectResolver) (rc : resolutionContext)
    (resolver : Value) (st : ObjectRun) (qs : QueryTreeChange) (rest : List Event)
    (hop : qs.Operation = Operation.Operation_DelChild)
    (hg : GoMap.get? st.fieldCancels qs.Child.Id = none) :
    reactiveLoop r rc resolver st (Event.change qs :: rest) =
      reactiveLoop r rc resolver st rest := by
  simp only [reactiveLoop, hop, hg]

theorem reactiveLoop_delete (r : objectResolver) (rc : resolutionContext)
    (resolver : Value) (st : ObjectRun) (qs : QueryTreeChange) (rest : List Event)
    (hop : qs.Operation = Operation.Operation_Delete) :
    reactiveLoop r rc resolver st (Event.change qs :: rest) =
      ({ st with trace := st.trace ++ [Effect.Purge rc] }, Status.returned) := by
  simp only [reactiveLoop, hop]

/-- The state in which `processChild` ends is its first component; it ends
returned or panicked. -/
theorem processChild_eta (r : objectResolver) (rc : resolutionContext) (resolver : Value)
    (st : ObjectRun) (nod : QueryTreeNode) :
    processChild r rc resolver st nod =
        ((processChild r rc resolver st nod).1, Status.returned) ∨
      processChild r rc resolver st nod =
        ((processChild r rc resolver st nod).1, Status.panicked) := by
  rcases processChild_cases r rc resolver st nod with ⟨-, h⟩ | ⟨fr, -, -, h⟩ | ⟨-, h⟩
  · left; rw [h]
  · left; exact Prod.ext rfl h
  · right; exact Prod.ext rfl h

/-- What holds before the initial fan-out and is kept by `processChild` holds
after it. -/
theorem fanOut_invariant (r : objectResolver) (rc : resolutionContext) (resolver : Value)
    (Inv : ObjectRun → Prop)
    (hadd : ∀ st nod, Inv st → Inv (processChild r rc resolver st nod).1) :
    ∀ (children : List QueryTreeNode) (st : ObjectRun), Inv st →
      Inv (fanOut r rc resolver st children).1 := by
  intro children
  induction children with
  | nil => intro st h; exact h
  | cons nod rest ih =>
    intro st h
    rcases processChild_eta r rc resolver st nod with hp | hp
    · rw [fanOut_cons_returned _ _ _ _ _ _ _ hp]
      exact ih _ (hadd _ _ h)
    · rw [fanOut_cons_panicked _ _ _ _ _ _ _ hp]
      exact hadd _ _ h

/-- What holds before the reactive loop and is kept by each of its steps holds
when the loop stops. -/
theorem reactiveLoop_invariant (r : objectResolver) (rc : resolutionContext) (resolver : Value)
    (Inv : ObjectRun → Prop)
    (hadd : ∀ st nod, Inv st → Inv (processChild r rc resolver st nod).1)
    (hdel : ∀ st id childRc, Inv st → GoMap.get? st.fieldCancels id = some childRc →
      Inv { st with
        trace := st.trace ++ [Effect.Purge childRc]
        fieldCancels := GoMap.delete st.fieldCancels id })
    (hpurge : ∀ st, Inv st → Inv { st with trace := st.trace ++ [Effect.Purge rc] }) :
    ∀ (events : List Event) (st : ObjectRun), Inv st →
      Inv (reactiveLoop r rc resolver st events).1 := by
  intro events
  induction events with
  | nil => intro st h; exact h
  | cons ev rest ih =>
    intro st h
    cases ev with
    | done => exact h
    | change qs =>
      cases hop : qs.Operation with
      | Operation_AddChild =>
        rcases processChild_eta r rc resolver st qs.Child with hp | hp
        · rw [reactiveLoop_add_returned _ _ _ _ _ _ _ hop hp]
          exact ih _ (hadd _ _ h)
        · rw [reactiveLoop_add_panicked _ _ _ _ _ _ _ hop hp]
          exact hadd _ _ h
      | Operation_DelChild =>
        cases hg : GoMap.get? st.fieldCancels qs.Child.Id with
        | none =>
          rw [reactiveLoop_del_none _ _ _ _ _ _ hop hg]
          exact ih _ h
        | some childRc =>
          rw [reactiveLoop_del_some _ _ _ _ _ _ _ hop hg]
          exact ih _ (hdel _ _ _ h hg)
      | Operation_Delete =>
        rw [reactiveLoop_delete _ _ _ _ _ _ hop]
        exact hpurge _ h

/-- The branch of `Execute` that a non-nil parent value takes. -/
theorem execute_nonnil (r : objectResolver) (rc : resolutionContext) (resolver : Value)
    (fresh : Nat) (events : List Event) (hnon : resolver.IsNil = some false) :
    r.Execute rc resolver fresh events =
      match fanOut r rc resolver ⟨[], [Effect.SetSelectionSet rc], fresh⟩
          rc.qnode.Children with
      | (st, Status.returned) =>
        if rc.isSerial = true then
          ⟨st.trace ++ (if rc.isRoot = true then [Effect.WgDone rc] else []),
            Status.returned, st.fieldCancels⟩
        else
          match reactiveLoop r rc resolver
            { st with trace := st.trace ++ [Effect.SubscribeChanges rc.qnode] } events with
          | (st, Status.blocked) => ⟨st.trace, Status.blocked, st.fieldCancels⟩
          | (st, status) =>
            ⟨st.trace ++ [Effect.Unsubscribe] ++
              (if rc.isRoot = true then [Effect.WgDone rc] else []), status, st.fieldCancels⟩
      | (st, status) =>
        ⟨st.trace ++ (if rc.isRoot = true then [Effect.WgDone rc] else []), status,
          st.fieldCancels⟩ := by
  have hvalid : resolver.IsValid = true := by
    cases resolver with
    | invalid => simp [Value.IsNil] at hnon
    | val t d => rfl
  simp only [objectResolver.Execute, hvalid, hnon, Bool.not_true, Bool.false_eq_true, if_false]

theorem processChild_fieldCallOk (r : objectResolver) (rc : resolutionContext)
    (resolver : Value) (st : ObjectRun) (nod : QueryTreeNode)
    (h : ∀ e ∈ st.trace, FieldCallOk r resolver e) :
    ∀ e ∈ (processChild r rc resolver st nod).1.trace, FieldCallOk r resolver e := by
  cases hfr : GoMap.get? r.fieldResolvers nod.FieldName with
  | none => rw [processChild_unregistered _ _ _ _ _ hfr]; exact h
  | some fr =>
    by_cases hnil : fr = Resolver.nil
    · subst hnil
      rw [processChild_nil _ _ _ _ _ hfr]
      intro e he
      simp only [List.mem_append, List.mem_singleton] at he
      rcases he with he | he
      · exact h e he
      · subst he; trivial
    · rw [processChild_registered _ _ _ _ _ _ hfr hnil]
      intro e he
      simp only [List.mem_append, List.mem_cons, List.mem_singleton, List.not_mem_nil,
        or_false] at he
      rcases he with he | he | he
      · exact h e he
      · subst he; trivial
      · subst he
        exact ⟨hfr, hnil, rfl⟩

theorem processChild_trace_mono (r : objectResolver) (rc : resolutionContext)
    (resolver : Value) (st : ObjectRun) (nod : QueryTreeNode) (e : Effect)
    (h : e ∈ st.trace) : e ∈ (processChild r rc resolver st nod).1.trace := by
  cases hfr : GoMap.get? r.fieldResolvers nod.FieldName with
  | none => rw [processChild_unregistered _ _ _ _ _ hfr]; exact h
  | some fr =>
    by_cases hnil : fr = Resolver.nil
    · subst hnil
      rw [processChild_nil _ _ _ _ _ hfr]
      exact List.mem_append_left _ h
    · rw [processChild_registered _ _ _ _ _ _ hfr hnil]
      exact List.mem_append_left _ h

/-- The fan-out over children none of which has the nil resolver returns. -/
theorem fanOut_returned (r : objectResolver) (rc : resolutionContext) (resolver : Value) :
    ∀ (children : List QueryTreeNode) (st : ObjectRun),
      (∀ c ∈ children, GoMap.get? r.fieldResolvers c.FieldName ≠ some Resolver.nil) →
      (fanOut r rc resolver st children).2 = Status.returned := by
  intro children
  induction children with
  | nil => intro st _; rfl
  | cons c rest ih =>
    intro st hno
    have hrest : ∀ c' ∈ rest, GoMap.get? r.fieldResolvers c'.FieldName ≠ some Resolver.nil :=
      fun c' hc' => hno c' (List.mem_cons_of_mem _ hc')
    rcases processChild_cases r rc resolver st c with ⟨-, h⟩ | ⟨fr, -, -, h⟩ | ⟨hn, -⟩
    · rw [fanOut_cons_returned _ _ _ _ _ _ _ h]; exact ih _ hrest
    · rw [fanOut_cons_returned _ _ _ _ (processChild r rc resolver st c).1 _ _
        (Prod.ext rfl h)]
      exact ih _ hrest
    · exact absurd hn (hno c (List.mem_cons_self _ _))

/-- The fan-out ends returned or panicked. -/
theorem fanOut_status (r : objectResolver) (rc : resolutionContext) (resolver : Value) :
    ∀ (children : List QueryTreeNode) (st : ObjectRun),
      (fanOut r rc resolver st children).2 = Status.returned ∨
        (fanOut r rc resolver st children).2 = Status.panicked := by
  intro children
  induction children with
  | nil => intro st; exact Or.inl rfl
  | cons c rest ih =>
    intro st
    rcases processChild_eta r rc resolver st c with hp | hp
    · rw [fanOut_cons_returned _ _ _ _ _ _ _ hp]; exact ih _
    · rw [fanOut_cons_panicked _ _ _ _ _ _ _ hp]; exact Or.inr rfl

/-- Every selected child with a registered field is dispatched by the fan-out,
when no selected child has the nil resolver. -/
theorem fanOut_dispatches (r : objectResolver) (rc : resolutionContext) (resolver : Value) :
    ∀ (children : List QueryTreeNode) (st : ObjectRun) (nod : QueryTreeNode) (fr : Resolver),
      (∀ c ∈ children, GoMap.get? r.fieldResolvers c.FieldName ≠ some Resolver.nil) →
      nod ∈ children → GoMap.get? r.fieldResolvers nod.FieldName = some fr →
      ∃ childRc : resolutionContext, childRc.qnode = nod ∧
        Effect.Execute fr childRc
          (if nod.FieldName = "__typename" then r.typeName
            else if nod.FieldName = "__schema" ∨ nod.FieldName = "__type" then
              r.introspectResolver
            else resolver)
          (!rc.isSerial) ∈ (fanOut r rc resolver st children).1.trace := by
  intro children
  induction children with
  | nil => intro st nod fr _ hmem; simp at hmem
  | cons c rest ih =>
    intro st nod fr hno hmem hfr
    have hrest : ∀ c' ∈ rest, GoMap.get? r.fieldResolvers c'.FieldName ≠ some Resolver.nil :=
      fun c' hc' => hno c' (List.mem_cons_of_mem _ hc')
    rcases List.mem_cons.mp hmem with hc | hc
    · subst hc
      have hnil : fr ≠ Resolver.nil := by
        intro h
        exact hno nod (List.mem_cons_self _ _) (by rw [hfr, h])
      refine ⟨rc.Child nod false ((GoMap.get? r.arrayFields nod.FieldName).getD false) st.fresh,
        rfl, ?_⟩
      rw [fanOut_cons_returned _ _ _ _ _ _ _ (processChild_registered _ _ _ _ _ _ hfr hnil)]
      apply fanOut_invariant r rc resolver (fun st' => _ ∈ st'.trace)
        (fun st' n h => processChild_trace_mono r rc resolver st' n _ h)
      simp
    · rcases processChild_cases r rc resolver st c with ⟨-, h⟩ | ⟨fr', -, -, h⟩ | ⟨hn, -⟩
      · rw [fanOut_cons_returned _ _ _ _ _ _ _ h]
        exact ih _ nod fr hrest hc hfr
      · rw [fanOut_cons_returned _ _ _ _ (processChild r rc resolver st c).1 _ _
          (Prod.ext rfl h)]
        exact ih _ nod fr hrest hc hfr
      · exact absurd hn (hno c (List.mem_cons_self _ _))

/-- The reactive loop of a resolver without a nil field resolver does not panic. -/
theorem reactiveLoop_no_panic (r : objectResolver) (rc : resolutionContext) (resolver : Value)
    (hno : ∀ name, GoMap.get? r.fieldResolvers name ≠ some Resolver.nil) :
    ∀ (events : List Event) (st : ObjectRun),
      (reactiveLoop r rc resolver st events).2 ≠ Status.panicked := by
  intro events
  induction events with
  | nil => intro st; simp [reactiveLoop]
  | cons ev rest ih =>
    intro st
    cases ev with
    | done => simp [reactiveLoop]
    | change qs =>
      cases hop : qs.Operation with
      | Operation_AddChild =>
        rcases processChild_cases r rc resolver st qs.Child with ⟨-, h⟩ | ⟨fr, -, -, h⟩ | ⟨hn, -⟩
        · rw [reactiveLoop_add_returned _ _ _ _ _ _ _ hop h]; exact ih _
        · rw [reactiveLoop_add_returned _ _ _ _ (processChild r rc resolver st qs.Child).1 _ _
            hop (Prod.ext rfl h)]
          exact ih _
        · exact absurd hn (hno _)
      | Operation_DelChild =>
        cases hg : GoMap.get? st.fieldCancels qs.Child.Id with
        | none => rw [reactiveLoop_del_none _ _ _ _ _ _ hop hg]; exact ih _
        | some childRc => rw [reactiveLoop_del_some _ _ _ _ _ _ _ hop hg]; exact ih _
      | Operation_Delete =>
        rw [reactiveLoop_delete _ _ _ _ _ _ hop]
        simp

/-- Every call of a field resolver in the trace of `Execute` is made as
`FieldCallOk` says. -/
theorem execute_fieldCallOk (r : objectResolver) (rc : resolutionContext)
    (resolver : Value) (fresh : Nat) (events : List Event) :
    ∀ e ∈ (r.Execute rc resolver fresh events).trace, FieldCallOk r resolver e := by
  have hone : ∀ (l : List Effect) (x : Effect), (∀ e ∈ l, FieldCallOk r resolver e) →
      FieldCallOk r resolver x → ∀ e ∈ l ++ [x], FieldCallOk r resolver e := by
    intro l x hl hx e he
    rcases List.mem_append.mp he with he | he
    · exact hl e he
    · simp only [List.mem_singleton] at he
      subst he; exact hx
  have hdeferred : ∀ l : List Effect, (∀ e ∈ l, FieldCallOk r resolver e) →
      ∀ e ∈ l ++ (if rc.isRoot = true then [Effect.WgDone rc] else []),
        FieldCallOk r resolver e := by
    intro l hl e he
    rcases List.mem_append.mp he with he | he
    · exact hl e he
    · split at he
      · simp only [List.mem_singleton] at he
        subst he; trivial
      · simp at he
  have hnil : ∀ e ∈ [Effect.SetValueNil rc] ++
      (if rc.isRoot = true then [Effect.WgDone rc] else []), FieldCallOk r resolver e := by
    apply hdeferred
    intro e he
    simp only [List.mem_singleton] at he
    subst he; trivial
  cases hnon : resolver.IsNil with
  | none =>
    cases hvalid : resolver.IsValid with
    | false => simpa [objectResolver.Execute, hvalid] using hnil
    | true =>
      have := hdeferred [] (by simp)
      simpa [objectResolver.Execute, hvalid, hnon] using this
  | some isNil =>
    have hvalid : resolver.IsValid = true := by
      cases resolver with
      | invalid => simp [Value.IsNil] at hnon
      | val t d => rfl
    cases isNil with
    | true => simpa [objectResolver.Execute, hvalid, hnon] using hnil
    | false =>
      have hfan : ∀ e ∈ (fanOut r rc resolver ⟨[], [Effect.SetSelectionSet rc], fresh⟩
          rc.qnode.Children).1.trace, FieldCallOk r resolver e := by
        apply fanOut_invariant r rc resolver
          (fun st => ∀ e ∈ st.trace, FieldCallOk r resolver e)
          (fun st nod h => processChild_fieldCallOk r rc resolver st nod h)
        intro e he
        simp only [List.mem_singleton] at he
        subst he; trivial
      have hloop : ∀ st : ObjectRun, (∀ e ∈ st.trace, FieldCallOk r resolver e) →
          ∀ e ∈ (reactiveLoop r rc resolver st events).1.trace, FieldCallOk r resolver e := by
        intro st hst
        exact reactiveLoop_invariant r rc resolver
          (fun st => ∀ e ∈ st.trace, FieldCallOk r resolver e)
          (fun st nod h => processChild_fieldCallOk r rc resolver st nod h)
          (fun st id childRc h _ => hone _ _ h trivial)
          (fun st h => hone _ _ h trivial) events st hst
      rw [execute_nonnil r rc resolver fresh events hnon]
      cases hf : fanOut r rc resolver ⟨[], [Effect.SetSelectionSet rc], fresh⟩
          rc.qnode.Children with
      | mk st1 status1 =>
        rw [hf] at hfan
        simp only at hfan
        have hsub := hloop { st1 with trace := st1.trace ++ [Effect.SubscribeChanges rc.qnode] }
          (hone _ _ hfan trivial)
        cases status1 with
        | returned =>
          simp only
          split
          · exact hdeferred _ hfan
          · cases hl : reactiveLoop r rc resolver
                { st1 with trace := st1.trace ++ [Effect.SubscribeChanges rc.qnode] }
                events with
            | mk st2 status2 =>
              rw [hl] at hsub
              simp only at hsub
              cases status2 with
              | blocked => exact hsub
              | returned => exact hdeferred _ (hone _ _ hsub trivial)
              | panicked => exact hdeferred _ (hone _ _ hsub trivial)
        | panicked => exact hdeferred _ hfan
        | blocked => exact hdeferred _ hfan

/-- The trace of the initial fan-out is part of the trace of `Execute` when
the fan-out returns. -/
theorem execute_trace_of_fanOut (r : objectResolver) (rc : resolutionContext)
    (resolver : Value) (fresh : Nat) (events : List Event) (e : Effect)
    (hnon : resolver.IsNil = some false)
    (hmem : e ∈ (fanOut r rc resolver ⟨[], [Effect.SetSelectionSet rc], fresh⟩
      rc.qnode.Children).1.trace) :
    e ∈ (r.Execute rc resolver fresh events).trace := by
  rw [execute_nonnil r rc resolver fresh events hnon]
  cases hf : fanOut r rc resolver ⟨[], [Effect.SetSelectionSet rc], fresh⟩
      rc.qnode.Children with
  | mk st1 status1 =>
    rw [hf] at hmem
    simp only at hmem
    have hsub : e ∈ (reactiveLoop r rc resolver
        { st1 with trace := st1.trace ++ [Effect.SubscribeChanges rc.qnode] } events).1.trace :=
      reactiveLoop_invariant r rc resolver (fun st => e ∈ st.trace)
        (fun st n h => processChild_trace_mono r rc resolver st n _ h)
        (fun st id c h _ => List.mem_append_left _ h)
        (fun st h => List.mem_append_left _ h) events _ (List.mem_append_left _ hmem)
    cases status1 with
    | returned =>
      simp only
      split
      · exact List.mem_append_left _ hmem
      · cases hl : reactiveLoop r rc resolver
            { st1 with trace := st1.trace ++ [Effect.SubscribeChanges rc.qnode] } events with
        | mk st2 status2 =>
          rw [hl] at hsub
          simp only at hsub
          cases status2 with
          | blocked => exact hsub
          | returned => exact List.mem_append_left _ (List.mem_append_left _ hsub)
          | panicked => exact List.mem_append_left _ (List.mem_append_left _ hsub)
    | panicked => exact List.mem_append_left _ hmem
    | blocked => exact List.mem_append_left _ hmem

/-! ## Lemmas on the bookkeeping of the reactive loop -/

theorem mem_keys_set_iff {κ ν : Type} [DecidableEq κ] (m : GoMap κ ν) (k id : κ) (v : ν) :
    id ∈ GoMap.keys (GoMap.set m k v) ↔ (id = k ∨ id ∈ GoMap.keys m) := by
  rw [GoMap.mem_keys_iff, GoMap.mem_keys_iff, GoMap.get?_set]
  by_cases h : k = id
  · simp [h]
  · have h' : ¬ id = k := fun hh => h hh.symm
    simp [h, h']

theorem mem_keys_delete {ν : Type} (m : GoMap Nat ν) (k id : Nat) :
    id ∈ GoMap.keys (GoMap.delete m k) ↔ (id ≠ k ∧ id ∈ GoMap.keys m) := by
  rw [GoMap.mem_keys_iff, GoMap.mem_keys_iff, GoMap.get?_delete]
  by_cases h : k = id
  · simp [h]
  · have h' : ¬ id = k := fun hh => h hh.symm
    simp [h, h']

/-- The keys of `fieldCancels` after a `processChild` that returned. -/
theorem processChild_keys (r : objectResolver) (rc : resolutionContext) (resolver : Value)
    (st : ObjectRun) (nod : QueryTreeNode) (id : Nat)
    (hret : (processChild r rc resolver st nod).2 = Status.returned) :
    id ∈ GoMap.keys (processChild r rc resolver st nod).1.fieldCancels ↔
      (isDispatchOf r id ⟨Operation.Operation_AddChild, nod⟩ = true ∨
        id ∈ GoMap.keys st.fieldCancels) := by
  cases hfr : GoMap.get? r.fieldResolvers nod.FieldName with
  | none =>
    rw [processChild_unregistered _ _ _ _ _ hfr]
    simp [isDispatchOf, hfr]
  | some fr =>
    by_cases hnil : fr = Resolver.nil
    · subst hnil
      rw [processChild_nil _ _ _ _ _ hfr] at hret
      simp at hret
    · rw [processChild_registered _ _ _ _ _ _ hfr hnil]
      simp only [mem_keys_set_iff, isDispatchOf, hfr]
      have : (id = nod.Id) ↔ (nod.Id = id) := eq_comm
      simp [this, hnil]

theorem initialAdds_no_removal (id : Nat) (children : List QueryTreeNode) :
    (initialAdds children).all (fun later => !isRemovalOf id later) = true := by
  induction children with
  | nil => rfl
  | cons c rest ih =>
    simp only [initialAdds, List.map_cons, List.all_cons, Bool.and_eq_true] at ih ⊢
    exact ⟨by simp [isRemovalOf], ih⟩

/-- The keys of `fieldCancels` after a fan-out that returned. -/
theorem fanOut_keys (r : objectResolver) (rc : resolutionContext) (resolver : Value)
    (id : Nat) :
    ∀ (children : List QueryTreeNode) (st : ObjectRun),
      (fanOut r rc resolver st children).2 = Status.returned →
      (id ∈ GoMap.keys (fanOut r rc resolver st children).1.fieldCancels ↔
        (dispatchedNotRemoved r (initialAdds children) id = true ∨
          id ∈ GoMap.keys st.fieldCancels)) := by
  intro children
  induction children with
  | nil => intro st _; simp [fanOut, initialAdds, dispatchedNotRemoved]
  | cons c rest ih =>
    intro st hret
    have hcons : dispatchedNotRemoved r (initialAdds (c :: rest)) id =
        ((isDispatchOf r id ⟨Operation.Operation_AddChild, c⟩ &&
          (initialAdds rest).all (fun later => !isRemovalOf id later)) ||
          dispatchedNotRemoved r (initialAdds rest) id) := rfl
    rw [hcons, initialAdds_no_removal]
    rcases processChild_eta r rc resolver st c with hp | hp
    · rw [fanOut_cons_returned _ _ _ _ _ _ _ hp] at hret ⊢
      rw [ih _ hret, processChild_keys r rc resolver st c id (by rw [hp])]
      simp only [Bool.and_true, Bool.or_eq_true]
      tauto
    · rw [fanOut_cons_panicked _ _ _ _ _ _ _ hp] at hret
      simp at hret

/-- The keys of `fieldCancels` when the reactive loop stops without a panic. -/
theorem reactiveLoop_keys (r : objectResolver) (rc : resolutionContext) (resolver : Value)
    (id : Nat) :
    ∀ (events : List Event) (st : ObjectRun),
      (reactiveLoop r rc resolver st events).2 ≠ Status.panicked →
      (id ∈ GoMap.keys (reactiveLoop r rc resolver st events).1.fieldCancels ↔
        (dispatchedNotRemoved r (processedChanges events) id = true ∨
          (id ∈ GoMap.keys st.fieldCancels ∧
            (processedChanges events).all (fun later => !isRemovalOf id later) = true))) := by
  intro events
  induction events with
  | nil => intro st _; simp [reactiveLoop, processedChanges, dispatchedNotRemoved]
  | cons ev rest ih =>
    intro st hret
    cases ev with
    | done => simp [reactiveLoop, processedChanges, dispatchedNotRemoved]
    | change qs =>
      have hcons : ∀ (q : QueryTreeChange) (l : List QueryTreeChange),
          dispatchedNotRemoved r (q :: l) id =
            ((isDispatchOf r id q && l.all (fun later => !isRemovalOf id later)) ||
              dispatchedNotRemoved r l id) := fun _ _ => rfl
      cases hop : qs.Operation with
      | Operation_AddChild =>
        have hpc : processedChanges (Event.change qs :: rest) = qs :: processedChanges rest := by
          simp [processedChanges, hop]
        have hqs : qs = ⟨Operation.Operation_AddChild, qs.Child⟩ := by
          cases qs; simp only at hop; rw [hop]
        have hnr : isRemovalOf id qs = false := by simp [isRemovalOf, hop]
        rw [hpc, hcons]
        rcases processChild_eta r rc resolver st qs.Child with hp | hp
        · rw [reactiveLoop_add_returned _ _ _ _ _ _ _ hop hp] at hret ⊢
          rw [ih _ hret, processChild_keys r rc resolver st qs.Child id (by rw [hp]), ← hqs]
          simp only [List.all_cons, hnr, Bool.not_false, Bool.true_and, Bool.or_eq_true,
            Bool.and_eq_true]
          tauto
        · rw [reactiveLoop_add_panicked _ _ _ _ _ _ _ hop hp] at hret
          simp at hret
      | Operation_DelChild =>
        have hpc : processedChanges (Event.change qs :: rest) = qs :: processedChanges rest := by
          simp [processedChanges, hop]
        have hnd : isDispatchOf r id qs = false := by simp [isDispatchOf, hop]
        rw [hpc, hcons]
        cases hg : GoMap.get? st.fieldCancels qs.Child.Id with
        | none =>
          rw [reactiveLoop_del_none _ _ _ _ _ _ hop hg] at hret ⊢
          rw [ih _ hret]
          have hnot : qs.Child.Id ∉ GoMap.keys st.fieldCancels := by
            rw [GoMap.mem_keys_iff, hg]; simp
          simp only [List.all_cons, hnd, Bool.false_and, Bool.false_or, Bool.and_eq_true,
            Bool.not_eq_true', isRemovalOf, hop, decide_True, Bool.true_and,
            decide_eq_false_iff_not]
          constructor
          · rintro (h | ⟨h1, h2⟩)
            · exact Or.inl h
            · exact Or.inr ⟨h1, fun hh => hnot (hh ▸ h1), h2⟩
          · rintro (h | ⟨h1, -, h2⟩)
            · exact Or.inl h
            · exact Or.inr ⟨h1, h2⟩
        | some childRc =>
          rw [reactiveLoop_del_some _ _ _ _ _ _ _ hop hg] at hret ⊢
          rw [ih _ hret]
          simp only [mem_keys_delete, List.all_cons, hnd, Bool.false_and, Bool.false_or,
            Bool.and_eq_true, Bool.not_eq_true', isRemovalOf, hop, decide_True, Bool.true_and,
            decide_eq_false_iff_not]
          constructor
          · rintro (h | ⟨⟨h0, h1⟩, h2⟩)
            · exact Or.inl h
            · exact Or.inr ⟨h1, fun hh => h0 hh.symm, h2⟩
          · rintro (h | ⟨h1, h0, h2⟩)
            · exact Or.inl h
            · exact Or.inr ⟨⟨fun hh => h0 hh.symm, h1⟩, h2⟩
      | Operation_Delete =>
        rw [reactiveLoop_delete _ _ _ _ _ _ hop]
        simp [processedChanges, hop, dispatchedNotRemoved]

theorem dispatchedNotRemoved_append (r : objectResolver) (id : Nat) :
    ∀ (first second : List QueryTreeChange),
      dispatchedNotRemoved r (first ++ second) id =
        (dispatchedNotRemoved r second id ||
          (dispatchedNotRemoved r first id &&
            second.all (fun later => !isRemovalOf id later))) := by
  intro first
  induction first with
  | nil => intro second; simp [dispatchedNotRemoved]
  | cons qs rest ih =>
    intro second
    have hcons : ∀ (q : QueryTreeChange) (l : List QueryTreeChange),
        dispatchedNotRemoved r (q :: l) id =
          ((isDispatchOf r id q && l.all (fun later => !isRemovalOf id later)) ||
            dispatchedNotRemoved r l id) := fun _ _ => rfl
    rw [List.cons_append, hcons, hcons, ih, List.all_append]
    cases isDispatchOf r id qs <;>
      cases dispatchedNotRemoved r second id <;>
      cases dispatchedNotRemoved r rest id <;>
      cases List.all rest (fun later => !isRemovalOf id later) <;>
      cases List.all second (fun later => !isRemovalOf id later) <;> rfl

/-- The map `fieldCancels` of a concurrent run on a non-nil value that does not
panic holds the children that were dispatched and not removed since. -/
theorem execute_fieldCancels_keys (r : objectResolver) (rc : resolutionContext)
    (resolver : Value) (fresh : Nat) (events : List Event) (id : Nat)
    (hserial : rc.isSerial = false) (hnon : resolver.IsNil = some false)
    (hrun : (r.Execute rc resolver fresh events).status ≠ Status.panicked) :
    id ∈ GoMap.keys (r.Execute rc resolver fresh events).fieldCancels ↔
      dispatchedNotRemoved r (initialAdds rc.qnode.Children ++ processedChanges events) id =
        true := by
  rw [execute_nonnil r rc resolver fresh events hnon] at hrun ⊢
  have hkeys := fanOut_keys r rc resolver id rc.qnode.Children
    ⟨[], [Effect.SetSelectionSet rc], fresh⟩
  rcases fanOut_status r rc resolver rc.qnode.Children
    ⟨[], [Effect.SetSelectionSet rc], fresh⟩ with hst | hst
  · have hk := hkeys hst
    cases hfan : fanOut r rc resolver ⟨[], [Effect.SetSelectionSet rc], fresh⟩
        rc.qnode.Children with
    | mk st1 status1 =>
      rw [hfan] at hst hk
      simp only at hst hk
      subst hst
      rw [hfan] at hrun
      simp only [hserial, Bool.false_eq_true, if_false] at hrun ⊢
      have hloop := reactiveLoop_keys r rc resolver id events
        { st1 with trace := st1.trace ++ [Effect.SubscribeChanges rc.qnode] }
      cases hl : reactiveLoop r rc resolver
          { st1 with trace := st1.trace ++ [Effect.SubscribeChanges rc.qnode] } events with
      | mk st2 status2 =>
        rw [hl] at hrun hloop
        have hnp : status2 ≠ Status.panicked := by
          cases status2 <;> simp_all
        have hfinal : (match (st2, status2) with
            | (st, Status.blocked) =>
              (⟨st.trace, Status.blocked, st.fieldCancels⟩ : ObjectResult)
            | (st, status) =>
              ⟨st.trace ++ [Effect.Unsubscribe] ++
                (if rc.isRoot = true then [Effect.WgDone rc] else []), status,
                st.fieldCancels⟩).fieldCancels = st2.fieldCancels := by
          cases status2 <;> rfl
        rw [hfinal, hloop hnp, dispatchedNotRemoved_append, hk]
        simp [GoMap.keys, Bool.or_eq_true, Bool.and_eq_true]
  · cases hfan : fanOut r rc resolver ⟨[], [Effect.SetSelectionSet rc], fresh⟩
        rc.qnode.Children with
    | mk st1 status1 =>
      rw [hfan] at hst hrun
      simp only at hst
      subst hst
      simp at hrun

/-- A concurrent or serial run of a resolver without a nil field resolver on a
non-nil value does not panic. -/
theorem execute_no_panic (r : objectResolver) (rc : resolutionContext)
    (resolver : Value) (fresh : Nat) (events : List Event)
    (hnon : resolver.IsNil = some false)
    (hno : ∀ name, GoMap.get? r.fieldResolvers name ≠ some Resolver.nil) :
    (r.Execute rc resolver fresh events).status ≠ Status.panicked := by
  rw [execute_nonnil r rc resolver fresh events hnon]
  have hst := fanOut_returned r rc resolver rc.qnode.Children
    ⟨[], [Effect.SetSelectionSet rc], fresh⟩ (fun c _ => hno c.FieldName)
  cases hfan : fanOut r rc resolver ⟨[], [Effect.SetSelectionSet rc], fresh⟩
      rc.qnode.Children with
  | mk st1 status1 =>
    rw [hfan] at hst
    simp only at hst
    subst hst
    simp only
    split
    · simp
    · have hl := reactiveLoop_no_panic r rc resolver hno events
        { st1 with trace := st1.trace ++ [Effect.SubscribeChanges rc.qnode] }
      cases hloop : reactiveLoop r rc resolver
          { st1 with trace := st1.trace ++ [Effect.SubscribeChanges rc.qnode] } events with
      | mk st2 status2 =>
        rw [hloop] at hl
        cases status2 <;> simp_all

/-! ## Lemmas on the object builder -/

theorem Store.update_rt (s : Store) (addr : Nat) (f : objectResolver → objectResolver) :
    (s.update addr f).rt = s.rt := rfl

theorem Store.update_get? (s : Store) (addr : Nat) (f : objectResolver → objectResolver)
    (o : objectResolver) (h : s.heap.get? addr = some o) :
    (s.update addr f).heap.get? addr = some (f o) := by
  have hlt : addr < s.heap.length := by
    rcases Nat.lt_or_ge addr s.heap.length with hl | hl
    · exact hl
    · rw [List.get?_eq_none.mpr hl] at h
      simp at h
  simp only [Store.update, h]
  rw [List.get?_eq_getElem?, List.getElem?_set_self hlt]

/-- The fields loop under the frame condition: the registration of `pair` and
the build-time fields of the instance are there at every call and at the end,
and every field resolver of the instance at the end was there at the start or
was built by a call made in the loop for a field of that name. -/
theorem buildFields_spec (env : Builders) (pair : TypeResolverPair) (addr : Nat)
    (hframe : env.Frame pair addr) :
    ∀ (fields : List FieldDefinition) (s : Store) (o : objectResolver),
      GoMap.get? s.rt.Resolvers pair = some (Resolver.object addr) →
      s.heap.get? addr = some o →
      (∀ c st, (c, st) ∈ (buildFields env pair addr s fields).2.2 → st.Holds pair addr o) ∧
      (buildFields env pair addr s fields).2.1.Holds pair addr o ∧
      (∀ o', (buildFields env pair addr s fields).2.1.heap.get? addr = some o' →
        ∀ k ∈ GoMap.keys o'.fieldResolvers,
          k ∈ GoMap.keys o.fieldResolvers ∨
          ∃ fd f st fr, fd ∈ fields ∧ fd.Name = some ⟨k⟩ ∧
            (Call.buildFuncResolver f fd, st) ∈ (buildFields env pair addr s fields).2.2 ∧
            (env.buildFuncResolver st f fd).1 = Except.ok fr) := by
  intro fields
  induction fields with
  | nil =>
    intro s o hreg hget
    refine ⟨?_, ⟨hreg, o, hget, rfl, rfl, rfl⟩, ?_⟩
    · intro c st h; simp [buildFields] at h
    · intro o' ho' k hk
      simp only [buildFields] at ho'
      rw [hget] at ho'
      cases ho'
      exact Or.inl hk
  | cons field rest ih =>
    intro s o hreg hget
    have hskip : buildFields env pair addr s (field :: rest) = buildFields env pair addr s rest →
        (∀ c st, (c, st) ∈ (buildFields env pair addr s (field :: rest)).2.2 →
          st.Holds pair addr o) ∧
        (buildFields env pair addr s (field :: rest)).2.1.Holds pair addr o ∧
        (∀ o', (buildFields env pair addr s (field :: rest)).2.1.heap.get? addr = some o' →
          ∀ k ∈ GoMap.keys o'.fieldResolvers,
            k ∈ GoMap.keys o.fieldResolvers ∨
            ∃ fd f st fr, fd ∈ field :: rest ∧ fd.Name = some ⟨k⟩ ∧
              (Call.buildFuncResolver f fd, st) ∈
                (buildFields env pair addr s (field :: rest)).2.2 ∧
              (env.buildFuncResolver st f fd).1 = Except.ok fr) := by
      intro heq
      rw [heq]
      obtain ⟨h1, h2, h3⟩ := ih s o hreg hget
      refine ⟨h1, h2, ?_⟩
      intro o' ho' k hk
      rcases h3 o' ho' k hk with h | ⟨fd, f, st, fr, hfd, hn, hc, hr⟩
      · exact Or.inl h
      · exact Or.inr ⟨fd, f, st, fr, List.mem_cons_of_mem _ hfd, hn, hc, hr⟩
    have hself : s.Holds pair addr o := ⟨hreg, o, hget, rfl, rfl, rfl⟩
    cases hname : field.Name with
    | none => exact hskip (by simp only [buildFields, hname])
    | some name =>
      by_cases hempty : name.Value = ""
      · exact hskip (by simp only [buildFields, hname, hempty, if_true])
      · cases hfind : env.findResolverFunc
            (if name.Value = "__schema" ∨ name.Value = "__type" then
              introspectObjectResolverType else pair.ResolverType) name.Value with
        | error e =>
          have heq : buildFields env pair addr s (field :: rest) =
              (some e, s, [(Call.findResolverFunc
                (if name.Value = "__schema" ∨ name.Value = "__type" then
                  introspectObjectResolverType else pair.ResolverType) name.Value, s)]) := by
            simp only [buildFields, hname, hempty, if_false, hfind]
          rw [heq]
          refine ⟨?_, hself, ?_⟩
          · intro c st h
            simp only [List.mem_singleton, Prod.mk.injEq] at h
            rw [h.2]; exact hself
          · intro o' ho' k hk
            simp only at ho'
            rw [hget] at ho'
            cases ho'
            exact Or.inl hk
        | ok resolverFunc =>
          obtain ⟨hreg1, hget1⟩ := hframe.1 s resolverFunc field o hreg hget
          cases hbuild : env.buildFuncResolver s resolverFunc field with
          | mk res s1 =>
            rw [hbuild] at hreg1 hget1
            simp only at hreg1 hget1
            have hs1 : s1.Holds pair addr o := ⟨hreg1, o, hget1, rfl, rfl, rfl⟩
            cases res with
            | error e =>
              have heq : buildFields env pair addr s (field :: rest) =
                  (some e, s1, [(Call.findResolverFunc
                    (if name.Value = "__schema" ∨ name.Value = "__type" then
                      introspectObjectResolverType else pair.ResolverType) name.Value, s),
                    (Call.buildFuncResolver resolverFunc field, s)]) := by
                simp only [buildFields, hname, hempty, if_false, hfind, hbuild]
              rw [heq]
              refine ⟨?_, hs1, ?_⟩
              · intro c st h
                simp only [List.mem_cons, Prod.mk.injEq, List.mem_singleton, List.not_mem_nil,
                  or_false] at h
                rcases h with h | h <;> (rw [h.2]; exact hself)
              · intro o' ho' k hk
                simp only at ho'
                rw [hget1] at ho'
                cases ho'
                exact Or.inl hk
            | ok fieldResolver =>
              -- the instance after the two assignments of the loop body
              have hs3 : ∃ s3 o3,
                  buildFields env pair addr s (field :: rest) =
                    ((buildFields env pair addr s3 rest).1,
                     (buildFields env pair addr s3 rest).2.1,
                     (Call.findResolverFunc
                        (if name.Value = "__schema" ∨ name.Value = "__type" then
                          introspectObjectResolverType else pair.ResolverType) name.Value, s) ::
                      (Call.buildFuncResolver resolverFunc field, s) ::
                      (buildFields env pair addr s3 rest).2.2) ∧
                  GoMap.get? s3.rt.Resolvers pair = some (Resolver.object addr) ∧
                  s3.heap.get? addr = some o3 ∧
                  o3.pair = o.pair ∧ o3.typeName = o.typeName ∧
                  o3.introspectResolver = o.introspectResolver ∧
                  o3.fieldResolvers = GoMap.set o.fieldResolvers name.Value fieldResolver := by
                have hget2 := Store.update_get? s1 addr (fun o =>
                  { o with fieldResolvers :=
                      GoMap.set o.fieldResolvers name.Value fieldResolver }) o hget1
                cases hty : (match field.Typ with
                    | AstType.NonNull inner => inner
                    | t => t) with
                | List inner =>
                  refine ⟨_, _, ?_, ?_, Store.update_get? _ addr (fun o =>
                    { o with arrayFields := GoMap.set o.arrayFields name.Value true }) _ hget2,
                    rfl, rfl, rfl, rfl⟩
                  · simp only [buildFields, hname, hempty, if_false, hfind, hbuild, hty]
                  · exact hreg1
                | Named n =>
                  refine ⟨_, _, ?_, ?_, hget2, rfl, rfl, rfl, rfl⟩
                  · simp only [buildFields, hname, hempty, if_false, hfind, hbuild, hty]
                  · exact hreg1
                | NonNull inner =>
                  refine ⟨_, _, ?_, ?_, hget2, rfl, rfl, rfl, rfl⟩
                  · simp only [buildFields, hname, hempty, if_false, hfind, hbuild, hty]
                  · exact hreg1
              obtain ⟨s3, o3, heq, hreg3, hget3, hp, ht, hi, hfr⟩ := hs3
              obtain ⟨h1, h2, h3⟩ := ih s3 o3 hreg3 hget3
              have hlift : ∀ st : Store, st.Holds pair addr o3 → st.Holds pair addr o := by
                rintro st ⟨hr, o', ho', e1, e2, e3⟩
                exact ⟨hr, o', ho', e1.trans hp, e2.trans ht, e3.trans hi⟩
              rw [heq]
              refine ⟨?_, hlift _ h2, ?_⟩
              · intro c st h
                simp only [List.mem_cons, Prod.mk.injEq] at h
                rcases h with h | h | h
                · rw [h.2]; exact hself
                · rw [h.2]; exact hself
                · exact hlift _ (h1 c st h)
              · intro o' ho' k hk
                rcases h3 o' ho' k hk with h | ⟨fd, f, st, fr, hfd, hn, hc, hr⟩
                · rw [hfr, mem_keys_set_iff] at h
                  rcases h with h | h
                  · refine Or.inr ⟨field, resolverFunc, s, fieldResolver,
                      List.mem_cons_self _ _, ?_, ?_, ?_⟩
                    · rw [hname, h]
                    · simp
                    · rw [hbuild]
                  · exact Or.inl h
                · exact Or.inr ⟨fd, f, st, fr, List.mem_cons_of_mem _ hfd, hn,
                    by simp [hc], hr⟩

theorem buildFields_first_call (env : Builders) (pair : TypeResolverPair) (addr : Nat) :
    ∀ (fields : List FieldDefinition) (s : Store),
      (∀ c st rest, (buildFields env pair addr s fields).2.2 = (c, st) :: rest → st = s) ∧
      ((buildFields env pair addr s fields).2.2 = [] →
        (buildFields env pair addr s fields).2.1 = s) := by
  intro fields
  induction fields with
  | nil => intro s; simp [buildFields]
  | cons field rest ih =>
    intro s
    cases hname : field.Name with
    | none =>
      have heq : buildFields env pair addr s (field :: rest) = buildFields env pair addr s rest := by
        simp only [buildFields, hname]
      rw [heq]; exact ih s
    | some name =>
      by_cases hempty : name.Value = ""
      · have heq : buildFields env pair addr s (field :: rest) =
            buildFields env pair addr s rest := by
          simp only [buildFields, hname, hempty, if_true]
        rw [heq]; exact ih s
      · have hcalls : ∃ rest', (buildFields env pair addr s (field :: rest)).2.2 =
            (Call.findResolverFunc
              (if name.Value = "__schema" ∨ name.Value = "__type" then
                introspectObjectResolverType else pair.ResolverType) name.Value, s) :: rest' := by
          simp only [buildFields, hname, hempty, if_false]
          split
          · exact ⟨_, rfl⟩
          · split
            · exact ⟨_, rfl⟩
            · exact ⟨_, rfl⟩
        obtain ⟨rest', hrest'⟩ := hcalls
        rw [hrest']
        constructor
        · intro c st r h
          simp only [List.cons.injEq, Prod.mk.injEq] at h
          exact h.1.2.symm
        · intro h; simp at h

/-- A run of the fields loop that calls no builder returns no error. -/
theorem buildFields_no_call (env : Builders) (pair : TypeResolverPair) (addr : Nat) :
    ∀ (fields : List FieldDefinition) (st : Store),
      (buildFields env pair addr st fields).2.2 = [] →
      (buildFields env pair addr st fields).1 = none := by
  intro fields
  induction fields with
  | nil => intro st _; rfl
  | cons field rest ih =>
    intro st h
    unfold buildFields at h ⊢
    split
    · exact ih _ (by simpa [*] using h)
    · rename_i nm hnm
      simp only [hnm] at h
      split
      · rename_i hem
        exact ih _ (by simpa [hem] using h)
      · rename_i hem
        simp only [hem, if_false] at h
        split at h
        · simp at h
        · split at h
          · simp at h
          · simp at h

theorem registeredStore_eq (s : Store) (pair : TypeResolverPair) (odef : ObjectDefinition)
    (name : Name) :
    (Store.update
      { rt := { s.rt with
          Resolvers := GoMap.set s.rt.Resolvers pair (Resolver.object s.heap.length) }
        heap := s.heap ++ [({ pair := pair
                              typeName := valueOfString name.Value
                              fieldResolvers := []
                              arrayFields := []
                              introspectResolver := Value.invalid } : objectResolver)] }
      s.heap.length
      (fun o => { o with introspectResolver := (Value.val introspectObjectResolverType
        (Data.introspect s.rt.Lookup odef s.rt.IntrospectionResolver)) })) =
    registeredStore s pair odef name := by
  simp [Store.update, registeredStore, initialInstance, List.get?_eq_getElem?]

theorem registeredStore_get? (s : Store) (pair : TypeResolverPair) (odef : ObjectDefinition)
    (name : Name) :
    GoMap.get? (registeredStore s pair odef name).rt.Resolvers pair =
        some (Resolver.object s.heap.length) ∧
      (registeredStore s pair odef name).heap.get? s.heap.length =
        some (initialInstance s pair odef name) := by
  constructor
  · simp [registeredStore, GoMap.get?_set]
  · simp [registeredStore, List.get?_eq_getElem?]

/-- The method `buildObjectResolver` on a definition with a name, in terms of
the state in which it enters the loop over the fields. -/
theorem buildObjectResolver_named (env : Builders) (s : Store) (pair : TypeResolverPair)
    (odef : ObjectDefinition) (name : Name) (hname : odef.Name = some name) :
    buildObjectResolver env s pair odef =
      match buildFields env pair s.heap.length (registeredStore s pair odef name) odef.Fields with
      | (some e, sf, calls) => ⟨Built.err e, sf, calls⟩
      | (none, sf, calls) =>
        match env.buildPrimitiveResolver sf goString stringTypeRef with
        | (Except.error e, s2) =>
          ⟨Built.err e, s2, calls ++ [(Call.buildPrimitiveResolver goString stringTypeRef, sf)]⟩
        | (Except.ok tnResolver, s2) =>
          ⟨Built.ok (Resolver.object s.heap.length),
           s2.update s.heap.length (fun o =>
             { o with fieldResolvers := GoMap.set o.fieldResolvers "__typename" tnResolver }),
           calls ++ [(Call.buildPrimitiveResolver goString stringTypeRef, sf)]⟩ := by
  simp only [buildObjectResolver, hname]
  rw [registeredStore_eq]

/-- What `buildObjectResolver` does on a definition with a name when the
other builders keep the frame condition. -/
theorem buildObjectResolver_spec (env : Builders) (s : Store) (pair : TypeResolverPair)
    (odef : ObjectDefinition) (name : Name) (hname : odef.Name = some name)
    (hframe : env.Frame pair s.heap.length) :
    (buildObjectResolver env s pair odef).store.Holds pair s.heap.length
        (initialInstance s pair odef name) ∧
    (∀ c st, (c, st) ∈ (buildObjectResolver env s pair odef).calls →
      st.Holds pair s.heap.length (initialInstance s pair odef name)) ∧
    (∃ c rest, (buildObjectResolver env s pair odef).calls =
      (c, registeredStore s pair odef name) :: rest) ∧
    (∀ r, (buildObjectResolver env s pair odef).result = Built.ok r →
      r = Resolver.object s.heap.length) ∧
    (∀ e, (buildObjectResolver env s pair odef).result = Built.err e →
      ∀ o', (buildObjectResolver env s pair odef).store.heap.get? s.heap.length = some o' →
        ∀ k ∈ GoMap.keys o'.fieldResolvers,
          ∃ fd f st fr, fd ∈ odef.Fields ∧ fd.Name = some ⟨k⟩ ∧
            (Call.buildFuncResolver f fd, st) ∈ (buildObjectResolver env s pair odef).calls ∧
            (env.buildFuncResolver st f fd).1 = Except.ok fr) := by
  obtain ⟨hreg, hget⟩ := registeredStore_get? s pair odef name
  obtain ⟨hcalls, hfinal, hkeys⟩ := buildFields_spec env pair s.heap.length hframe odef.Fields
    (registeredStore s pair odef name) (initialInstance s pair odef name) hreg hget
  obtain ⟨hfirst, hnone⟩ := buildFields_first_call env pair s.heap.length odef.Fields
    (registeredStore s pair odef name)
  rw [buildObjectResolver_named env s pair odef name hname]
  cases hbf : buildFields env pair s.heap.length (registeredStore s pair odef name)
      odef.Fields with
  | mk res tail =>
    cases tail with
    | mk sf calls =>
      rw [hbf] at hcalls hfinal hkeys hfirst hnone
      simp only at hcalls hfinal hkeys hfirst hnone
      have hkeys' : ∀ o', sf.heap.get? s.heap.length = some o' →
          ∀ k ∈ GoMap.keys o'.fieldResolvers,
            ∃ fd f st fr, fd ∈ odef.Fields ∧ fd.Name = some ⟨k⟩ ∧
              (Call.buildFuncResolver f fd, st) ∈ calls ∧
              (env.buildFuncResolver st f fd).1 = Except.ok fr := by
        intro o' ho' k hk
        rcases hkeys o' ho' k hk with h | h
        · simp [initialInstance, GoMap.keys] at h
        · exact h
      cases res with
      | some e =>
        simp only
        refine ⟨hfinal, hcalls, ?_, ?_, ?_⟩
        · cases calls with
          | nil =>
            exfalso
            have hres := buildFields_no_call env pair s.heap.length odef.Fields
              (registeredStore s pair odef name) (by rw [hbf])
            rw [hbf] at hres
            simp at hres
          | cons hd tl =>
            obtain ⟨c, st⟩ := hd
            have := hfirst c st tl rfl
            exact ⟨c, tl, by rw [this]⟩
        · intro r h; simp at h
        · intro e' _ o' ho' k hk
          exact hkeys' o' ho' k hk
      | none =>
        simp only
        obtain ⟨hregf, of, hgetf, hp, ht, hi⟩ := hfinal
        obtain ⟨hreg2, hget2⟩ := hframe.2 sf goString stringTypeRef of hregf hgetf
        have hfirst' : ∃ c rest, calls ++ [(Call.buildPrimitiveResolver goString stringTypeRef,
            sf)] = (c, registeredStore s pair odef name) :: rest := by
          cases calls with
          | nil =>
            have := hnone rfl
            exact ⟨_, [], by rw [this]; rfl⟩
          | cons hd tl =>
            obtain ⟨c, st⟩ := hd
            have := hfirst c st tl rfl
            exact ⟨c, tl ++ [(Call.buildPrimitiveResolver goString stringTypeRef, sf)],
              by rw [this]; rfl⟩
        have hcalls' : ∀ c st, (c, st) ∈ calls ++
            [(Call.buildPrimitiveResolver goString stringTypeRef, sf)] →
            st.Holds pair s.heap.length (initialInstance s pair odef name) := by
          intro c st h
          rcases List.mem_append.mp h with h | h
          · exact hcalls c st h
          · simp only [List.mem_singleton, Prod.mk.injEq] at h
            rw [h.2]
            exact ⟨hregf, of, hgetf, hp, ht, hi⟩
        cases hprim : env.buildPrimitiveResolver sf goString stringTypeRef with
        | mk pres s2 =>
          rw [hprim] at hreg2 hget2
          simp only at hreg2 hget2
          cases pres with
          | error e =>
            simp only
            refine ⟨⟨hreg2, of, hget2, hp, ht, hi⟩, hcalls', hfirst', ?_, ?_⟩
            · intro r h; simp at h
            · intro e' _ o' ho' k hk
              rw [hget2] at ho'
              cases ho'
              obtain ⟨fd, f, st, fr, h1, h2, h3, h4⟩ := hkeys' of hgetf k hk
              exact ⟨fd, f, st, fr, h1, h2, List.mem_append_left _ h3, h4⟩
          | ok tn =>
            simp only
            refine ⟨⟨hreg2, _, Store.update_get? s2 _ _ of hget2, hp, ht, hi⟩, hcalls',
              hfirst', ?_, ?_⟩
            · intro r h
              simp only [Built.ok.injEq] at h
              exact h.symm
            · intro e' h; simp at h

theorem selfRefBuilders_frame (pair : TypeResolverPair) (addr : Nat) :
    Example.selfRefBuilders.Frame pair addr :=
  ⟨fun _ _ _ _ h1 h2 => ⟨h1, h2⟩, fun _ _ _ _ h1 h2 => ⟨h1, h2⟩⟩

theorem missingFuncBuilders_frame (pair : TypeResolverPair) (addr : Nat) :
    Example.missingFuncBuilders.Frame pair addr :=
  ⟨fun _ _ _ _ h1 h2 => ⟨h1, h2⟩, fun _ _ _ _ h1 h2 => ⟨h1, h2⟩⟩

/-! ## The claims -/

open Example in
/-- C1 (the code departs from the claim): with the declared values RED, GREEN,
BLUE the ordinal-based resolver hands the input 3, which equals the number of
declared values, to the delegate and writes no error; 5 and -1 are rejected. -/
theorem C1_ordinal_equal_to_count_is_delegated :
    buildEnumResolver leafBuildResolver emptyStore goInt rgb = (Built.ok rgbByOrdinal, emptyStore) ∧
    rgbByOrdinal.Execute colorRc (Value.val goInt (Data.num 3)) =
      ⟨[Effect.Execute (Resolver.other 7) colorRc (Value.val goInt (Data.num 3)) true],
        Status.returned⟩ ∧
    rgbByOrdinal.Execute colorRc (Value.val goInt (Data.num 5)) =
      ⟨[Effect.SetError colorRc "Enum value 5 not in list of possible values."],
        Status.returned⟩ ∧
    rgbByOrdinal.Execute colorRc (Value.val goInt (Data.num (-1))) =
      ⟨[Effect.SetError colorRc "Enum value -1 not in list of possible values."],
        Status.returned⟩ := by
  refine ⟨by decide, by decide, by decide, by decide⟩

/-- C2: for a name-based resolver built by `buildEnumResolver`, whose delegate
is the resolver the nested `BuildResolver` returned, and a string input: when
the string is one of the declared names and the delegate is not nil, `Execute`
makes one spawned call of the delegate with the input and writes no error;
when the string is not a declared name, whatever the delegate is, it writes
the one error "Enum value <s> not in list of possible values." and makes no
call of the delegate. -/
theorem C2_name_based_membership
    (BuildResolver : Store → TypeResolverPair → Except String Resolver × Store)
    (s sf : Store) (value : RType) (etyp : EnumDefinition) (er : enumResolver)
    (hkind : value.kind = Kind.String)
    (hbuild : buildEnumResolver BuildResolver s value etyp = (Built.ok er, sf))
    (rc : resolutionContext) (sval : String) :
    BuildResolver s ⟨stringTypeRef, value⟩ = (Except.ok er.valueResolver, sf) ∧
    (sval ∈ declaredNames etyp → er.valueResolver ≠ Resolver.nil →
      er.Execute rc (valueOfString sval) =
        ⟨[Effect.Execute er.valueResolver rc (valueOfString sval) true], Status.returned⟩) ∧
    (sval ∉ declaredNames etyp →
      er.Execute rc (valueOfString sval) =
        ⟨[Effect.SetError rc ("Enum value " ++ sval ++ " not in list of possible values.")],
          Status.returned⟩) := by
  unfold buildEnumResolver at hbuild
  simp only [hkind, beq_self_eq_true, Bool.not_true, Bool.false_and, Bool.false_eq_true,
    if_false, if_true] at hbuild
  split at hbuild
  · simp at hbuild
  · rename_i r0 hfill
    split at hbuild
    · simp at hbuild
    · rename_i vr s' hB
      simp only [Prod.mk.injEq, Built.ok.injEq] at hbuild
      obtain ⟨her, hsf⟩ := hbuild
      have hf := fillEnumValues_fields true _ _ _ _ hfill
      have hn := fillEnumValues_names _ _ _ _ hfill sval
      simp only [GoMap.get?, Option.isSome_none, Bool.false_eq_true, false_or] at hn
      subst her
      subst hsf
      have huse : r0.useName = true := by simpa using hf.1
      refine ⟨hB, ?_, ?_⟩
      · intro hmem hvr
        have hsome := hn.mpr hmem
        simp only [enumResolver.Execute, valueOfString, Value.IsValid, Value.Kind, goString,
          Value.assertString, huse, if_true]
        cases hg : GoMap.get? r0.possibleValues sval with
        | none => simp [hg] at hsome
        | some idx =>
          simp only [enumResolver.delegate]
          rw [if_neg hvr]
          simp
      · intro hmem
        simp only [enumResolver.Execute, valueOfString, Value.IsValid, Value.Kind, goString,
          Value.assertString, huse, if_true]
        cases hg : GoMap.get? r0.possibleValues sval with
        | none => simp [enumNameError]
        | some idx =>
          exact absurd (hn.mp (by simp [hg])) hmem

open Example in
/-- C2, at a concrete input: with the declared values RED, GREEN, BLUE the
input "RED" is handed to the delegate and "PURPLE" yields the error that names
PURPLE. -/
theorem C2_name_based_membership_witness :
    rgbByName.Execute colorRc (valueOfString "RED") =
      ⟨[Effect.Execute (Resolver.other 7) colorRc (valueOfString "RED") true],
        Status.returned⟩ ∧
    rgbByName.Execute colorRc (valueOfString "PURPLE") =
      ⟨[Effect.SetError colorRc "Enum value PURPLE not in list of possible values."],
        Status.returned⟩ :=
  ⟨(C2_name_based_membership leafBuildResolver emptyStore emptyStore goString rgb rgbByName
      (by decide) (by decide) colorRc "RED").2.1 (by decide) (by decide),
   (C2_name_based_membership leafBuildResolver emptyStore emptyStore goString rgb rgbByName
      (by decide) (by decide) colorRc "PURPLE").2.2 (by decide)⟩

open Example in
/-- C3 (the code departs from the claim): a resolver built for the native type
`int8` has the conversion target `int`, its delegate is the one built for the
pairing of `String` with `int8`, and for the input `int8(1)`, which passes the
range check, the one value it hands to that delegate is the converted `int(1)`,
not the `int8(1)` it received; for the native type `int`, where nothing is
converted, the delegate gets the `int(1)` that was received. -/
theorem C3_delegate_receives_converted_value :
    buildEnumResolver pairBuildResolver emptyStore goInt8 rgb =
      (Built.ok { rgbFromInt8 with valueResolver := Resolver.other 8 }, emptyStore) ∧
    pairBuildResolver emptyStore ⟨stringTypeRef, goInt8⟩ =
      (Except.ok (Resolver.other 8), emptyStore) ∧
    ({ rgbFromInt8 with valueResolver := Resolver.other 8 } : enumResolver).Execute colorRc
        (Value.val goInt8 (Data.num 1)) =
      ⟨[Effect.Execute (Resolver.other 8) colorRc (Value.val goInt (Data.num 1)) true],
        Status.returned⟩ ∧
    Value.val goInt (Data.num 1) ≠ Value.val goInt8 (Data.num 1) ∧
    rgbByOrdinal.Execute colorRc (Value.val goInt (Data.num 1)) =
      ⟨[Effect.Execute (Resolver.other 7) colorRc (Value.val goInt (Data.num 1)) true],
        Status.returned⟩ := by
  refine ⟨by decide, rfl, by decide, by decide, by decide⟩

/-- C7: `buildEnumResolver` returns the construction error that names the
type when the kind is neither string nor int and the type is not convertible to
the canonical int type, and only then: for any other type every error it
returns is the one of the nested `BuildResolver`. A resolver it returns is
name-based exactly for kind string, and has a conversion target (the canonical
int type) exactly when the kind is neither string nor int. For a supported type
whose values all have names the build succeeds when the nested build does. -/
theorem C7_enum_builder_kind_check
    (BuildResolver : Store → TypeResolverPair → Except String Resolver × Store)
    (s : Store) (value : RType) (etyp : EnumDefinition) :
    ((value.kind ≠ Kind.String ∧ value.kind ≠ Kind.Int ∧ value.ConvertibleTo intType = false) →
      buildEnumResolver BuildResolver s value etyp =
        (Built.err ("Enum values can be expressed with an int or string, not " ++
          value.name ++ "."), s)) ∧
    ((∀ B : Store → TypeResolverPair → Except String Resolver × Store,
        (buildEnumResolver B s value etyp).1 =
          Built.err ("Enum values can be expressed with an int or string, not " ++
            value.name ++ ".")) ↔
      (value.kind ≠ Kind.String ∧ value.kind ≠ Kind.Int ∧
        value.ConvertibleTo intType = false)) ∧
    (¬ (value.kind ≠ Kind.String ∧ value.kind ≠ Kind.Int ∧
        value.ConvertibleTo intType = false) →
      ∀ e sf, buildEnumResolver BuildResolver s value etyp = (Built.err e, sf) →
        BuildResolver s ⟨stringTypeRef, value⟩ = (Except.error e, sf)) ∧
    (∀ er sf, buildEnumResolver BuildResolver s value etyp = (Built.ok er, sf) →
      (er.useName = true ↔ value.kind = Kind.String) ∧
      (er.useName = false ↔ value.kind ≠ Kind.String) ∧
      (er.convertTo.isSome = true ↔ (value.kind ≠ Kind.String ∧ value.kind ≠ Kind.Int)) ∧
      (er.convertTo = none ∨ er.convertTo = some intType)) ∧
    (¬ (value.kind ≠ Kind.String ∧ value.kind ≠ Kind.Int ∧
        value.ConvertibleTo intType = false) →
      (∀ val ∈ etyp.Values, val.Name ≠ none) →
      ∀ vr sf, BuildResolver s ⟨stringTypeRef, value⟩ = (Except.ok vr, sf) →
        ∃ er, buildEnumResolver BuildResolver s value etyp = (Built.ok er, sf)) := by
  have hbad : ∀ B : Store → TypeResolverPair → Except String Resolver × Store,
      (value.kind ≠ Kind.String ∧ value.kind ≠ Kind.Int ∧ value.ConvertibleTo intType = false) →
      buildEnumResolver B s value etyp = (Built.err (enumKindError value), s) := by
    intro B h
    obtain ⟨h1, h2, h3⟩ := h
    simp [buildEnumResolver, h1, h2, h3]
  have hgood : ∀ B : Store → TypeResolverPair → Except String Resolver × Store,
      ¬ (value.kind ≠ Kind.String ∧ value.kind ≠ Kind.Int ∧
        value.ConvertibleTo intType = false) →
      buildEnumResolver B s value etyp =
        match fillEnumValues (value.kind == Kind.String)
          { useName := value.kind == Kind.String
            possibleValues := []
            possibleValuesIndex :=
              if (value.kind == Kind.String) = true then []
              else List.replicate etyp.Values.length ""
            valueResolver := Resolver.nil
            convertTo :=
              if value.kind ≠ Kind.String ∧ value.kind ≠ Kind.Int then some intType else none }
          0 etyp.Values with
        | none => (Built.panic, s)
        | some resolver =>
          match B s { GqlType := stringTypeRef, ResolverType := value } with
          | (Except.error e, s') => (Built.err e, s')
          | (Except.ok vr, s') => (Built.ok { resolver with valueResolver := vr }, s') := by
    intro B h
    by_cases h1 : value.kind = Kind.String
    · simp [buildEnumResolver, h1]
    · by_cases h2 : value.kind = Kind.Int
      · simp [buildEnumResolver, h1, h2]
      · have h3 : value.ConvertibleTo intType = true := by
          by_contra hc
          exact h ⟨h1, h2, by simpa using hc⟩
        simp [buildEnumResolver, h1, h2, h3]
  refine ⟨hbad BuildResolver, ⟨?_, fun h B => by rw [hbad B h]; rfl⟩, ?_, ?_, ?_⟩
  · intro hall
    by_contra hno
    have h := hall (fun st _ => (Except.ok Resolver.nil, st))
    rw [hgood _ hno] at h
    split at h
    · simp at h
    · simp at h
  · intro hno e sf h
    rw [hgood _ hno] at h
    split at h
    · simp at h
    · split at h
      · rename_i e' s' hB
        simp only [Prod.mk.injEq, Built.err.injEq] at h
        rw [hB, h.1, h.2]
      · simp at h
  · intro er sf h
    have hno : ¬ (value.kind ≠ Kind.String ∧ value.kind ≠ Kind.Int ∧
        value.ConvertibleTo intType = false) := by
      intro hb
      rw [hbad _ hb] at h
      simp at h
    rw [hgood _ hno] at h
    split at h
    · simp at h
    · rename_i r0 hfill
      split at h
      · simp at h
      · simp only [Prod.mk.injEq, Built.ok.injEq] at h
        obtain ⟨her, -⟩ := h
        have hf := fillEnumValues_fields _ _ _ _ _ hfill
        subst her
        simp only [hf.1, hf.2.1, beq_iff_eq]
        refine ⟨trivial, by simp, ?_, ?_⟩
        · by_cases hc : value.kind ≠ Kind.String ∧ value.kind ≠ Kind.Int
          · simp [hc]
          · simp only [if_neg hc, Option.isSome_none, Bool.false_eq_true, false_iff]
            exact hc
        · by_cases hc : value.kind ≠ Kind.String ∧ value.kind ≠ Kind.Int
          · right; simp [hc]
          · left; simp only [if_neg hc]
  · intro hno hall vr sf hB
    rw [hgood _ hno]
    obtain ⟨r', hr'⟩ := fillEnumValues_total (value.kind == Kind.String) etyp.Values hall
      { useName := value.kind == Kind.String
        possibleValues := []
        possibleValuesIndex :=
          if (value.kind == Kind.String) = true then []
          else List.replicate etyp.Values.length ""
        valueResolver := Resolver.nil
        convertTo :=
          if value.kind ≠ Kind.String ∧ value.kind ≠ Kind.Int then some intType else none } 0
    rw [hr', hB]
    exact ⟨_, rfl⟩

open Example in
/-- C9 (the code departs from the claim): for the declared type
`type Color int`, whose kind is int, `buildEnumResolver` succeeds in ordinal
mode without a conversion target, and `Execute` on the value `Color(1)` panics
at the assertion `.(int)`; likewise for the declared type `type Shade string`
the build succeeds in name mode and `Execute` on `Shade("RED")` panics at the
assertion `.(string)`. -/
theorem C9_named_type_assertion_panics :
    buildEnumResolver leafBuildResolver emptyStore namedInt rgb =
      (Built.ok rgbByOrdinal, emptyStore) ∧
    rgbByOrdinal.Execute colorRc (Value.val namedInt (Data.num 1)) = ⟨[], Status.panicked⟩ ∧
    buildEnumResolver leafBuildResolver emptyStore namedString rgb =
      (Built.ok rgbByName, emptyStore) ∧
    rgbByName.Execute colorRc (Value.val namedString (Data.str "RED")) =
      ⟨[], Status.panicked⟩ := by
  refine ⟨by decide, by decide, by decide, by decide⟩

/-- C4: on an absent (invalid) or nil input value `objectResolver.Execute`
calls `SetValue(nil)` once and returns, with one `wg.Done()` after it when the
context is root and nothing else: no child context, no field resolver, no
selection set, no error, no subscription; whatever the mode, the selected
children and the pending events are. -/
theorem C4_nil_input_writes_nil_only (r : objectResolver) (rc : resolutionContext)
    (resolver : Value) (fresh : Nat) (events : List Event)
    (hnil : resolver.IsValid = false ∨ resolver.IsNil = some true) :
    r.Execute rc resolver fresh events =
      ⟨Effect.SetValueNil rc :: (if rc.isRoot = true then [Effect.WgDone rc] else []),
        Status.returned, []⟩ := by
  rcases hnil with h | h
  · simp [objectResolver.Execute, h]
  · have hvalid : resolver.IsValid = true := by
      cases resolver with
      | invalid => simp [Value.IsNil] at h
      | val t d => rfl
    simp [objectResolver.Execute, h, hvalid]

open Example in
/-- C4, at concrete inputs: the invalid Value on a root context in concurrent
mode with two children selected and an AddChild event pending, and the nil
pointer on a non-root context in serial mode with three children selected. -/
theorem C4_nil_input_writes_nil_only_witness :
    userResolver.Execute userRc Value.invalid 1
        [Event.change ⟨Operation.Operation_AddChild, nodeC⟩] =
      ⟨[Effect.SetValueNil userRc, Effect.WgDone userRc], Status.returned, []⟩ ∧
    userResolver.Execute serialRc nilUser 1 [] =
      ⟨[Effect.SetValueNil serialRc], Status.returned, []⟩ :=
  ⟨(C4_nil_input_writes_nil_only userResolver userRc Value.invalid 1
      [Event.change ⟨Operation.Operation_AddChild, nodeC⟩] (Or.inl (by decide))).trans
      (by decide),
   (C4_nil_input_writes_nil_only userResolver serialRc nilUser 1 []
      (Or.inr (by decide))).trans (by decide)⟩

/-- C5: every call of a field resolver that `objectResolver.Execute` makes, in
the initial fan-out or for a child added later, is on the resolver registered
for the field name of the child node, which is not nil, and its argument is
`typeName` for "__typename", `introspectResolver` for "__schema" and "__type",
and the parent value itself for every other name; and with a non-nil parent
value and no nil resolver registered for a selected child, every selected child
whose field has a registered resolver gets such a call.
In an instance that `buildObjectResolver` leaves, `typeName` is the name of the
object definition and `introspectResolver` is the introspection value bound to
that definition. -/
theorem C5_field_resolver_argument (r : objectResolver) (rc : resolutionContext)
    (resolver : Value) (fresh : Nat) (events : List Event) :
    (∀ fr childRc arg spawned,
      Effect.Execute fr childRc arg spawned ∈ (r.Execute rc resolver fresh events).trace →
      GoMap.get? r.fieldResolvers childRc.qnode.FieldName = some fr ∧
      fr ≠ Resolver.nil ∧
      (childRc.qnode.FieldName = "__typename" → arg = r.typeName) ∧
      (childRc.qnode.FieldName = "__schema" ∨ childRc.qnode.FieldName = "__type" →
        arg = r.introspectResolver) ∧
      (childRc.qnode.FieldName ≠ "__typename" → childRc.qnode.FieldName ≠ "__schema" →
        childRc.qnode.FieldName ≠ "__type" → arg = resolver)) ∧
    (resolver.IsNil = some false →
      (∀ c ∈ rc.qnode.Children,
        GoMap.get? r.fieldResolvers c.FieldName ≠ some Resolver.nil) →
      ∀ nod ∈ rc.qnode.Children, ∀ fr, GoMap.get? r.fieldResolvers nod.FieldName = some fr →
      ∃ childRc : resolutionContext, childRc.qnode = nod ∧
        Effect.Execute fr childRc
          (if nod.FieldName = "__typename" then r.typeName
            else if nod.FieldName = "__schema" ∨ nod.FieldName = "__type" then
              r.introspectResolver
            else resolver)
          (!rc.isSerial) ∈ (r.Execute rc resolver fresh events).trace) ∧
    (∀ (env : Builders) (s : Store) (pair : TypeResolverPair) (odef : ObjectDefinition)
        (name : Name) (o : objectResolver),
      odef.Name = some name → env.Frame pair s.heap.length →
      (buildObjectResolver env s pair odef).store.heap.get? s.heap.length = some o →
      o.typeName = valueOfString name.Value ∧
      o.introspectResolver = Value.val introspectObjectResolverType
        (Data.introspect s.rt.Lookup odef s.rt.IntrospectionResolver)) := by
  refine ⟨?_, ?_, ?_⟩
  · intro fr childRc arg spawned hmem
    have h := execute_fieldCallOk r rc resolver fresh events _ hmem
    simp only [FieldCallOk] at h
    obtain ⟨h1, hnil, h2⟩ := h
    refine ⟨h1, hnil, ?_, ?_, ?_⟩
    · intro hn; rw [h2, if_pos hn]
    · intro hn
      have hne : childRc.qnode.FieldName ≠ "__typename" := by
        rcases hn with hn | hn <;> rw [hn] <;> decide
      rw [h2, if_neg hne, if_pos hn]
    · intro h3 h4 h5
      rw [h2, if_neg h3, if_neg (by rintro (h | h); exact h4 h; exact h5 h)]
  · intro hnon hno nod hnod fr hfr
    obtain ⟨childRc, hq, hmem⟩ := fanOut_dispatches r rc resolver rc.qnode.Children
      ⟨[], [Effect.SetSelectionSet rc], fresh⟩ nod fr hno hnod hfr
    exact ⟨childRc, hq, execute_trace_of_fanOut r rc resolver fresh events _ hnon hmem⟩
  · intro env s pair odef name o hname hframe ho
    obtain ⟨⟨-, o', ho', -, ht, hi⟩, -⟩ :=
      buildObjectResolver_spec env s pair odef name hname hframe
    rw [ho] at ho'
    cases ho'
    exact ⟨ht, hi⟩

open Example in
/-- C5, at a concrete input: in serial mode with `a`, `__typename` and
`__schema` selected and a non-nil `*main.User`, the resolver of `a` gets the
parent value, the one of `__typename` gets the string "User", and the one of
`__schema` gets the bound introspection value; and the instance that the
builder leaves for `User` in an empty tree has the type name "User" and the
introspection value bound to the definition of `User`. -/
theorem C5_field_resolver_argument_witness :
    userValue.IsNil = some false ∧
    (∃ childRc : resolutionContext, childRc.qnode = nodeA ∧
      Effect.Execute (Resolver.other 101) childRc userValue false ∈
        (userResolver.Execute serialRc userValue 1 []).trace) ∧
    (∃ childRc : resolutionContext, childRc.qnode = nodeTypename ∧
      Effect.Execute (Resolver.other 1) childRc (valueOfString "User") false ∈
        (userResolver.Execute serialRc userValue 1 []).trace) ∧
    (∃ childRc : resolutionContext, childRc.qnode = nodeSchema ∧
      Effect.Execute (Resolver.other 104) childRc
        (Value.val introspectObjectResolverType (Data.introspect 0 userDef 1)) false ∈
        (userResolver.Execute serialRc userValue 1 []).trace) ∧
    ((buildObjectResolver selfRefBuilders emptyStore userPair userDef).store.heap.get?
      0).isSome = true ∧
    (∀ o, (buildObjectResolver selfRefBuilders emptyStore userPair userDef).store.heap.get?
        0 = some o →
      o.typeName = valueOfString "User" ∧
      o.introspectResolver =
        Value.val introspectObjectResolverType (Data.introspect 0 userDef 1)) :=
  ⟨by decide,
   (C5_field_resolver_argument userResolver serialRc userValue 1 []).2.1 (by decide)
     (by decide) nodeA (by decide) (Resolver.other 101) (by decide),
   (C5_field_resolver_argument userResolver serialRc userValue 1 []).2.1 (by decide)
     (by decide) nodeTypename (by decide) (Resolver.other 1) (by decide),
   (C5_field_resolver_argument userResolver serialRc userValue 1 []).2.1 (by decide)
     (by decide) nodeSchema (by decide) (Resolver.other 104) (by decide),
   by decide,
   fun o ho => (C5_field_resolver_argument userResolver serialRc userValue 1 []).2.2
     selfRefBuilders emptyStore userPair userDef ⟨"User"⟩ o rfl
     (selfRefBuilders_frame userPair 0) ho⟩

/-- C6: in concurrent mode with a non-nil value: when the children `a` and `b`
are selected (distinct identifiers, fields with resolvers that are not nil),
the run first dispatches `a` and `b` and subscribes; an AddChild event for `c`
then adds exactly the creation of one new child context for `c` and one call
of the resolver of `c` on it, and nothing for `a` or `b`; a following DelChild
event for `b` adds exactly one `Purge` of the context of `b` and takes `b` out
of the map `fieldCancels`, leaving the entries of `a` and `c`. A run of a
resolver without a nil field resolver never panics, and for all selected
children and every sequence of events on which the run does not panic the keys
of `fieldCancels` are the identifiers of the children that were dispatched and
not removed since. -/
theorem C6_reactive_add_and_remove (r : objectResolver) (rc : resolutionContext)
    (resolver : Value) (fresh : Nat)
    (hserial : rc.isSerial = false) (hnon : resolver.IsNil = some false) :
    (∀ (a b c : QueryTreeNode) (fa fb fc : Resolver),
      rc.qnode.Children = [a, b] →
      a.Id ≠ b.Id → a.Id ≠ c.Id → b.Id ≠ c.Id →
      GoMap.get? r.fieldResolvers a.FieldName = some fa → fa ≠ Resolver.nil →
      GoMap.get? r.fieldResolvers b.FieldName = some fb → fb ≠ Resolver.nil →
      GoMap.get? r.fieldResolvers c.FieldName = some fc → fc ≠ Resolver.nil →
      ∃ ca cb cc : resolutionContext, ∃ argA argB argC : Value,
        ca.qnode = a ∧ cb.qnode = b ∧ cc.qnode = c ∧
        ca.id = fresh ∧ cb.id = fresh + 1 ∧ cc.id = fresh + 2 ∧
        r.Execute rc resolver fresh [] =
          ⟨[Effect.SetSelectionSet rc,
            Effect.Child rc a false ca.isArray ca, Effect.Execute fa ca argA true,
            Effect.Child rc b false cb.isArray cb, Effect.Execute fb cb argB true,
            Effect.SubscribeChanges rc.qnode],
           Status.blocked, [(b.Id, cb), (a.Id, ca)]⟩ ∧
        r.Execute rc resolver fresh [Event.change ⟨Operation.Operation_AddChild, c⟩] =
          ⟨[Effect.SetSelectionSet rc,
            Effect.Child rc a false ca.isArray ca, Effect.Execute fa ca argA true,
            Effect.Child rc b false cb.isArray cb, Effect.Execute fb cb argB true,
            Effect.SubscribeChanges rc.qnode,
            Effect.Child rc c false cc.isArray cc, Effect.Execute fc cc argC true],
           Status.blocked, [(c.Id, cc), (b.Id, cb), (a.Id, ca)]⟩ ∧
        r.Execute rc resolver fresh
            [Event.change ⟨Operation.Operation_AddChild, c⟩,
             Event.change ⟨Operation.Operation_DelChild, b⟩] =
          ⟨[Effect.SetSelectionSet rc,
            Effect.Child rc a false ca.isArray ca, Effect.Execute fa ca argA true,
            Effect.Child rc b false cb.isArray cb, Effect.Execute fb cb argB true,
            Effect.SubscribeChanges rc.qnode,
            Effect.Child rc c false cc.isArray cc, Effect.Execute fc cc argC true,
            Effect.Purge cb],
           Status.blocked, [(c.Id, cc), (a.Id, ca)]⟩) ∧
    ((∀ name, GoMap.get? r.fieldResolvers name ≠ some Resolver.nil) →
      ∀ events : List Event,
        (r.Execute rc resolver fresh events).status ≠ Status.panicked) ∧
    (∀ (events : List Event) (id : Nat),
      (r.Execute rc resolver fresh events).status ≠ Status.panicked →
      (id ∈ GoMap.keys (r.Execute rc resolver fresh events).fieldCancels ↔
        dispatchedNotRemoved r
          (initialAdds rc.qnode.Children ++ processedChanges events) id = true)) := by
  refine ⟨?_, fun hno events => execute_no_panic r rc resolver fresh events hnon hno,
    fun events id hrun =>
      execute_fieldCancels_keys r rc resolver fresh events id hserial hnon hrun⟩
  intro a b c fa fb fc hchildren hab hac hbc hfa hna hfb hnb hfc hnc
  have hba : ¬ b.Id = a.Id := fun h => hab h.symm
  have hca : ¬ c.Id = a.Id := fun h => hac h.symm
  have hcb : ¬ c.Id = b.Id := fun h => hbc h.symm
  refine ⟨rc.Child a false ((GoMap.get? r.arrayFields a.FieldName).getD false) fresh,
    rc.Child b false ((GoMap.get? r.arrayFields b.FieldName).getD false) (fresh + 1),
    rc.Child c false ((GoMap.get? r.arrayFields c.FieldName).getD false) (fresh + 2),
    (if a.FieldName = "__typename" then r.typeName
      else if a.FieldName = "__schema" ∨ a.FieldName = "__type" then r.introspectResolver
      else resolver),
    (if b.FieldName = "__typename" then r.typeName
      else if b.FieldName = "__schema" ∨ b.FieldName = "__type" then r.introspectResolver
      else resolver),
    (if c.FieldName = "__typename" then r.typeName
      else if c.FieldName = "__schema" ∨ c.FieldName = "__type" then r.introspectResolver
      else resolver),
    rfl, rfl, rfl, rfl, rfl, rfl, ?_, ?_, ?_⟩
  · rw [execute_nonnil r rc resolver fresh _ hnon]
    simp only [hserial, hchildren, fanOut, Bool.false_eq_true,
      if_false, processChild_registered _ _ _ _ _ _ hfa hna,
      processChild_registered _ _ _ _ _ _ hfb hnb, reactiveLoop]
    simp [GoMap.set, GoMap.delete, resolutionContext.Child, hab, hserial]
  · rw [execute_nonnil r rc resolver fresh _ hnon]
    simp only [hserial, hchildren, fanOut, Bool.false_eq_true,
      if_false, processChild_registered _ _ _ _ _ _ hfa hna,
      processChild_registered _ _ _ _ _ _ hfb hnb,
      processChild_registered _ _ _ _ _ _ hfc hnc, reactiveLoop]
    simp [GoMap.set, GoMap.delete, resolutionContext.Child, hab, hac, hbc, hserial]
  · rw [execute_nonnil r rc resolver fresh _ hnon]
    simp only [hserial, hchildren, fanOut, Bool.false_eq_true,
      if_false, processChild_registered _ _ _ _ _ _ hfa hna,
      processChild_registered _ _ _ _ _ _ hfb hnb,
      processChild_registered _ _ _ _ _ _ hfc hnc, reactiveLoop]
    simp [GoMap.set, GoMap.delete, GoMap.get?, resolutionContext.Child, hab, hac, hbc, hba,
      hca, hcb, hserial]

open Example in
/-- C6, at a concrete input: the resolver of `User` on a root context in
concurrent mode with `a` and `b` selected, then `c` added and `b` removed: the
trace ends with the dispatch of `c` on context 3 and the purge of context 2,
the context of `b`, and the map is left with the entries of `c` and `a`. -/
theorem C6_reactive_add_and_remove_witness :
    (userResolver.Execute userRc userValue 1
        [Event.change ⟨Operation.Operation_AddChild, nodeC⟩,
         Event.change ⟨Operation.Operation_DelChild, nodeB⟩]).status = Status.blocked ∧
    userResolver.Execute userRc userValue 1
        [Event.change ⟨Operation.Operation_AddChild, nodeC⟩,
         Event.change ⟨Operation.Operation_DelChild, nodeB⟩] =
      ⟨[Effect.SetSelectionSet userRc,
        Effect.Child userRc nodeA false false ⟨1, nodeA, false, false, false⟩,
        Effect.Execute (Resolver.other 101) ⟨1, nodeA, false, false, false⟩ userValue true,
        Effect.Child userRc nodeB false false ⟨2, nodeB, false, false, false⟩,
        Effect.Execute (Resolver.other 102) ⟨2, nodeB, false, false, false⟩ userValue true,
        Effect.SubscribeChanges userRc.qnode,
        Effect.Child userRc nodeC false true ⟨3, nodeC, false, false, true⟩,
        Effect.Execute (Resolver.other 103) ⟨3, nodeC, false, false, true⟩ userValue true,
        Effect.Purge ⟨2, nodeB, false, false, false⟩],
       Status.blocked,
       [(3, ⟨3, nodeC, false, false, true⟩), (1, ⟨1, nodeA, false, false, false⟩)]⟩ ∧
    (∀ id : Nat,
      id ∈ GoMap.keys (userResolver.Execute userRc userValue 1
        [Event.change ⟨Operation.Operation_AddChild, nodeC⟩,
         Event.change ⟨Operation.Operation_DelChild, nodeB⟩]).fieldCancels ↔
      dispatchedNotRemoved userResolver
        (initialAdds userRc.qnode.Children ++ processedChanges
          [Event.change ⟨Operation.Operation_AddChild, nodeC⟩,
           Event.change ⟨Operation.Operation_DelChild, nodeB⟩]) id = true) :=
  ⟨match (C6_reactive_add_and_remove userResolver userRc userValue 1 (by decide)
        (by decide)).1 nodeA nodeB nodeC (Resolver.other 101) (Resolver.other 102)
        (Resolver.other 103) (by decide) (by decide) (by decide) (by decide)
        (by decide) (by decide) (by decide) (by decide) (by decide) (by decide) with
    | ⟨_, _, _, _, _, _, _, _, _, _, _, _, _, _, h⟩ => congrArg ObjectResult.status h,
   by decide,
   fun id => (C6_reactive_add_and_remove userResolver userRc userValue 1 (by decide)
     (by decide)).2.2 _ id (by decide)⟩

/-- C8: for a definition with a name, `buildObjectResolver` makes at least one
call of another builder, and in the program state of the first of them the
pairing is already mapped to the new instance, which has no field resolver
yet; when the other builders leave that registration alone it is there at
every call, so that a nested build of the same pairing finds it; and on
success the resolver returned is that registered instance. -/
theorem C8_registered_before_fields (env : Builders) (s : Store) (pair : TypeResolverPair)
    (odef : ObjectDefinition) (name : Name) (hname : odef.Name = some name)
    (hframe : env.Frame pair s.heap.length) :
    s.heap.get? s.heap.length = none ∧
    (∃ c st rest, (buildObjectResolver env s pair odef).calls = (c, st) :: rest ∧
      GoMap.get? st.rt.Resolvers pair = some (Resolver.object s.heap.length) ∧
      st.heap.get? s.heap.length = some
        { pair := pair
          typeName := valueOfString name.Value
          fieldResolvers := []
          arrayFields := []
          introspectResolver := Value.val introspectObjectResolverType
            (Data.introspect s.rt.Lookup odef s.rt.IntrospectionResolver) }) ∧
    (∀ c st, (c, st) ∈ (buildObjectResolver env s pair odef).calls →
      GoMap.get? st.rt.Resolvers pair = some (Resolver.object s.heap.length) ∧
      (st.heap.get? s.heap.length).isSome = true) ∧
    (∀ r, (buildObjectResolver env s pair odef).result = Built.ok r →
      r = Resolver.object s.heap.length ∧
      GoMap.get? (buildObjectResolver env s pair odef).store.rt.Resolvers pair = some r ∧
      ((buildObjectResolver env s pair odef).store.heap.get? s.heap.length).isSome = true) := by
  obtain ⟨hstore, hcalls, ⟨c, rest, hfirst⟩, hok, -⟩ :=
    buildObjectResolver_spec env s pair odef name hname hframe
  obtain ⟨hreg, hget⟩ := registeredStore_get? s pair odef name
  refine ⟨List.get?_eq_none.mpr (Nat.le_refl _), ⟨c, _, rest, hfirst, hreg, hget⟩, ?_, ?_⟩
  · intro c' st h
    obtain ⟨h1, o', h2, -⟩ := hcalls c' st h
    exact ⟨h1, by rw [h2]; rfl⟩
  · intro r h
    obtain ⟨h1, o', h2, -⟩ := hstore
    have hr := hok r h
    exact ⟨hr, by rw [hr]; exact h1, by rw [h2]; rfl⟩

open Example in
/-- C8, at a concrete input: building `User`, whose field `c` refers back to
`User`, in an empty tree: the build succeeds with the instance at address 0,
and the resolver of `c`, which the nested build looked up in the tree, is that
same instance. -/
theorem C8_registered_before_fields_witness :
    (buildObjectResolver selfRefBuilders emptyStore userPair userDef).result =
      Built.ok (Resolver.object 0) ∧
    (buildObjectResolver selfRefBuilders emptyStore userPair userDef).store.heap.map
        objectResolver.fieldResolvers =
      [[("__typename", Resolver.other 1), ("c", Resolver.object 0),
        ("b", Resolver.other 101), ("a", Resolver.other 101)]] ∧
    (∀ r, (buildObjectResolver selfRefBuilders emptyStore userPair userDef).result =
        Built.ok r →
      r = Resolver.object 0 ∧
      GoMap.get? (buildObjectResolver selfRefBuilders emptyStore userPair
        userDef).store.rt.Resolvers userPair = some r ∧
      ((buildObjectResolver selfRefBuilders emptyStore userPair userDef).store.heap.get?
        0).isSome = true) :=
  ⟨by decide, by decide,
   (C8_registered_before_fields selfRefBuilders emptyStore userPair userDef ⟨"User"⟩ rfl
     (selfRefBuilders_frame userPair 0)).2.2.2⟩

/-- C10: when the other builders leave the registration alone and
`buildObjectResolver` returns a construction error, the tree still maps the
pairing to the new instance, and that instance is incomplete: each of its field
resolvers was built by a call made before the failure for a field of that
name, and it has no resolver for "__typename" unless the definition declares a
field of that name. -/
theorem C10_failed_build_leaves_entry (env : Builders) (s : Store) (pair : TypeResolverPair)
    (odef : ObjectDefinition) (name : Name) (e : String) (hname : odef.Name = some name)
    (hframe : env.Frame pair s.heap.length)
    (herr : (buildObjectResolver env s pair odef).result = Built.err e) :
    GoMap.get? (buildObjectResolver env s pair odef).store.rt.Resolvers pair =
      some (Resolver.object s.heap.length) ∧
    ∃ o, (buildObjectResolver env s pair odef).store.heap.get? s.heap.length = some o ∧
      o.pair = pair ∧ o.typeName = valueOfString name.Value ∧
      (∀ k ∈ GoMap.keys o.fieldResolvers,
        ∃ fd f st fr, fd ∈ odef.Fields ∧ fd.Name = some ⟨k⟩ ∧
          (Call.buildFuncResolver f fd, st) ∈ (buildObjectResolver env s pair odef).calls ∧
          (env.buildFuncResolver st f fd).1 = Except.ok fr) ∧
      ((∀ fd ∈ odef.Fields, fd.Name ≠ some ⟨"__typename"⟩) →
        GoMap.get? o.fieldResolvers "__typename" = none) := by
  obtain ⟨⟨hreg, o, hget, hp, ht, -⟩, -, -, -, hkeys⟩ :=
    buildObjectResolver_spec env s pair odef name hname hframe
  refine ⟨hreg, o, hget, hp, ht, hkeys e herr o hget, ?_⟩
  intro hno
  by_contra hsome
  have hmem : "__typename" ∈ GoMap.keys o.fieldResolvers := by
    rw [GoMap.mem_keys_iff]
    cases hg : GoMap.get? o.fieldResolvers "__typename" with
    | none => exact absurd hg hsome
    | some r => rfl
  obtain ⟨fd, _, _, _, hfd, hfn, -, -⟩ := hkeys e herr o hget _ hmem
  exact hno fd hfd hfn

open Example in
/-- C10, at a concrete input: building `User` when no function is found for
field `b` returns the construction error, and yet the tree maps the pairing to
the instance at address 0, which has the resolver of `a`, built before the
failure, and none for `b`, `c` or "__typename". -/
theorem C10_failed_build_leaves_entry_witness :
    (buildObjectResolver missingFuncBuilders emptyStore userPair userDef).result =
      Built.err "no resolver function for b" ∧
    (buildObjectResolver missingFuncBuilders emptyStore userPair userDef).store.rt.Resolvers =
      [(userPair, Resolver.object 0)] ∧
    (buildObjectResolver missingFuncBuilders emptyStore userPair userDef).store.heap.map
        objectResolver.fieldResolvers = [[("a", Resolver.other 101)]] ∧
    (GoMap.get? (buildObjectResolver missingFuncBuilders emptyStore userPair
        userDef).store.rt.Resolvers userPair = some (Resolver.object 0) ∧
      ∃ o, (buildObjectResolver missingFuncBuilders emptyStore userPair
          userDef).store.heap.get? 0 = some o ∧
        o.pair = userPair ∧ o.typeName = valueOfString "User" ∧
        (∀ k ∈ GoMap.keys o.fieldResolvers,
          ∃ fd f st fr, fd ∈ userDef.Fields ∧ fd.Name = some ⟨k⟩ ∧
            (Call.buildFuncResolver f fd, st) ∈
              (buildObjectResolver missingFuncBuilders emptyStore userPair userDef).calls ∧
            (missingFuncBuilders.buildFuncResolver st f fd).1 = Except.ok fr) ∧
        ((∀ fd ∈ userDef.Fields, fd.Name ≠ some ⟨"__typename"⟩) →
          GoMap.get? o.fieldResolvers "__typename" = none)) :=
  ⟨by decide, by decide, by decide,
   C10_failed_build_leaves_entry missingFuncBuilders emptyStore userPair userDef ⟨"User"⟩
     "no resolver function for b" rfl (missingFuncBuilders_frame userPair 0) (by decide)⟩

end Magellan
